import Mathlib

/-! # rgurobi: `solve_gurobi` (src/solve_gurobi.cpp)

A shallow embedding of the single exported function of the package, which hands a
linear or mixed-integer model to the Gurobi solver and returns the solutions of its
pool, and proofs of properties of it.

Modelling conventions.

* C++ `double` values are rationals; the arithmetic is exact.
* `std::size_t` values and vector lengths are natural numbers; C `int` values are
  integers.  The one conversion of an `int` to `std::size_t` is written out
  (`size_t_of_int`); dimensions and counts are otherwise taken as they are.
* The external solver is a parameter (`Solver`): what it answers to attribute
  reads and which calls it refuses by raising an exception.  The attributes `Obj` and
  `Xn` of a variable are stored values: reading one twice gives the same answer.  The
  status is read twice, and the two answers are two fields.
* The function runs in `Exec`: it threads the sequence of calls made to the solver
  and the text written to `Rcout`, and ends either with a value or with an `Abort`.
  The two attribute reads of the product of line 124, whose order C++ leaves open,
  are made left to right.
* An access past the end of a vector or array has no defined behaviour in C++;
  the embedding ends such a run with `Abort.undefined`, at the statement of the access.
  The address `&v[0]` that the source takes of a vector is read by the solver, inside
  the call it is passed to, for as many elements as the count passed with it: the call
  is made whatever the length of the vector (`callReading`), and nothing is read through
  the pointer when the count is zero.
* The `model` list is taken after its conversion to native vectors and strings, which
  the embedding assumes to succeed.
-/

namespace Rgurobi

/-! ## Data -/

/-- Modelled from the spec: the linear-expression type of the solver library
(`GRBLinExpr` of gurobi_c++.h, which is not part of the repository): a constant
plus a sum of `coefficient × variable` terms, kept in the order in which they were
added.  A variable is named by its position in the array returned by `addVars`. -/
structure GRBLinExpr where
  constant : ℚ
  terms : List (ℚ × Nat)
deriving DecidableEq

/-- The expression assigned by `lhs_grb[i]=0`: constant zero, no term. -/
def GRBLinExpr.zero : GRBLinExpr := ⟨0, []⟩

/-- The expression `v * vars_grb[c]`: a single term. -/
def GRBLinExpr.term (v : ℚ) (c : Nat) : GRBLinExpr := ⟨0, [(v, c)]⟩

/-- The operator `+=` of linear expressions: constants are added and the terms of
the right-hand side are appended. -/
def GRBLinExpr.add (e f : GRBLinExpr) : GRBLinExpr :=
  ⟨e.constant + f.constant, e.terms ++ f.terms⟩

/-- The coefficient of variable `c` in an expression: the sum of the coefficients
of the terms in that variable. -/
def GRBLinExpr.coeff (e : GRBLinExpr) (c : Nat) : ℚ :=
  ((e.terms.filter (fun t => t.2 = c)).map (fun t => t.1)).sum

/-- The `model` argument, after its conversion to native vectors (lines 23 to 33). -/
structure Model where
  A_rows : List Int
  A_cols : List Int
  A_vals : List ℚ
  obj : List ℚ
  rhs : List ℚ
  ub : List ℚ
  lb : List ℚ
  vtype : List String
  sense : List String
  modelsense : String
  modelname : String
deriving DecidableEq

/-- Modelled from the spec: the calls that `solve_gurobi` makes to the solver library
(gurobi_c++.h, which is not part of the repository), with the data each one passes. -/
inductive Call where
  | newEnv
  | newModel
  | setModelName (name : String)
  | update
  | setParam (name value : String)
  | addVars (lb ub : Option (List ℚ)) (obj : List ℚ) (vtype : List Char) (count : Nat)
  | setModelSense (v : Int)
  | addConstrs (lhs : List GRBLinExpr) (sense : List Char) (rhs : List ℚ)
      (names : List String) (count : Nat)
  | optimize
  | getStatus
  | getSolCount
  | setSolutionNumber (k : Nat)
  | getObj (j : Nat)
  | getXn (j : Nat)
  | getRuntime
  | getIterCount
  | getBarIterCount
  | getNodeCount
deriving DecidableEq

/-- Modelled from the spec: the external solver, which is not part of the repository:
which calls it refuses (given the calls made so far) and what it answers to attribute
reads.  `status1` is the answer to the read of the
`Status` attribute on line 99, `status2` the answer to the read on line 129; `xn k j`
is the `Xn` attribute of variable `j` while the `SolutionNumber` parameter is `k`. -/
structure Solver where
  rejects : List Call → Call → Bool
  status1 : Int
  status2 : Int
  solCount : Int
  obj : Nat → ℚ
  xn : Nat → Nat → ℚ
  runtime : ℚ
  iterCount : ℚ
  barIterCount : Int
  nodeCount : ℚ

/-- An `Rcpp::NumericMatrix`: its two dimensions and its rows. -/
structure NumericMatrix where
  nrow : Nat
  ncol : Nat
  rows : List (List ℚ)
deriving DecidableEq

/-- A value stored in the returned `Rcpp::List`. -/
inductive Value where
  | str (s : String)
  | num (d : ℚ)
  | vec (v : List ℚ)
  | mat (m : NumericMatrix)
deriving DecidableEq

/-- An `Rcpp::List` of named values, in the order of `Rcpp::List::create`. -/
abbrev RList := List (String × Value)

/-- The value stored under a key of a returned list. -/
def RList.get (r : RList) (key : String) : Option Value :=
  (r.find? (fun kv => kv.1 = key)).map (fun kv => kv.2)

/-- The keys of a returned list. -/
def RList.keys (r : RList) : List String := r.map (fun kv => kv.1)

/-! ## Runs -/

/-- How a run ends when it returns no value. -/
inductive Abort where
  | fatal (msg : String)
  | solverError (c : Call)
  | undefined
deriving DecidableEq

/-- What a run has done so far: the calls made to the solver and the text written
to `Rcout`, both oldest first. -/
structure St where
  calls : List Call
  log : List String
deriving DecidableEq

deriving instance DecidableEq for Except

/-- A computation that makes solver calls and writes log text. -/
def Exec (α : Type) : Type := St → Except Abort α × St

/-- Return a value, doing nothing. -/
def Exec.pure {α : Type} (a : α) : Exec α := fun s => (Except.ok a, s)

/-- Sequencing: an abort ends the run. -/
def Exec.bind {α β : Type} (m : Exec α) (f : α → Exec β) : Exec β := fun s =>
  match m s with
  | (Except.ok a, s1) => f a s1
  | (Except.error e, s1) => (Except.error e, s1)

instance : Monad Exec where
  pure := Exec.pure
  bind := Exec.bind

/-- End the run. -/
def abort {α : Type} (e : Abort) : Exec α := fun s => (Except.error e, s)

/-- The statement `if (verbose) Rcout << msg`. -/
def say (verbose : Bool) (msg : String) : Exec Unit := fun s =>
  (Except.ok (), { s with log := s.log ++ (if verbose then [msg] else []) })

/-- A call to the solver with no answer; the solver may refuse it. -/
def call (S : Solver) (c : Call) : Exec Unit := fun s =>
  (if S.rejects s.calls c then Except.error (Abort.solverError c) else Except.ok (),
    { s with calls := s.calls ++ [c] })

/-- A call that hands the solver pointers into vectors of the caller together with an
element count.  The call is made; `fits` tells whether every vector handed over has that
many elements.  When one has not, the solver reads past its end, which has no defined
behaviour, so nothing is said of how the run goes on. -/
def callReading (S : Solver) (c : Call) (fits : Bool) : Exec Unit := fun s =>
  (if fits then
      (if S.rejects s.calls c then Except.error (Abort.solverError c) else Except.ok ())
    else Except.error Abort.undefined,
    { s with calls := s.calls ++ [c] })

/-- An attribute read: a call to the solver that answers `ans`. -/
def query {α : Type} (S : Solver) (c : Call) (ans : α) : Exec α := fun s =>
  (if S.rejects s.calls c then Except.error (Abort.solverError c) else Except.ok ans,
    { s with calls := s.calls ++ [c] })

/-- A value obtained by reading memory: absent when the read is out of bounds. -/
def orUndefined {α : Type} (o : Option α) : Exec α :=
  match o with
  | some a => Exec.pure a
  | none => abort Abort.undefined

/-- The call `Rf_error(msg)`. -/
def Rf_error {α : Type} (msg : String) : Exec α := abort (Abort.fatal msg)

/-- A counted loop `for (i = lo; i < lo + count; ++i) st = body i st`. -/
def forLoop {σ : Type} (body : Nat → σ → Exec σ) : Nat → Nat → σ → Exec σ
  | _, 0, st => Exec.pure st
  | lo, count + 1, st => Exec.bind (body lo st) (fun st1 => forLoop body (lo + 1) count st1)

/-- The run of a computation from the start of the call. -/
def run {α : Type} (m : Exec α) : Except Abort α × St := m ⟨[], []⟩

/-! ## Pieces of `solve_gurobi` -/

/-- The function `std::to_string` on an `int` or `std::size_t`: decimal digits, with
a leading minus sign for a negative number. -/
def to_string (n : Int) : String :=
  match n with
  | Int.ofNat m => Nat.repr m
  | Int.negSucc m => "-" ++ Nat.repr (m + 1)

/-- The expression `s[0]` on a `std::string`: the first character, the terminating
null character for the empty string. -/
def firstChar (s : String) : Char := s.data.headD (Char.ofNat 0)

/-- The loops of lines 41 to 44: `out[i] = v[i][0]` for `i < n`.  The vector `v` is
indexed without a check, so it must have `n` elements. -/
def firstChars (v : List String) (n : Nat) : Option (List Char) :=
  if n ≤ v.length then some ((v.take n).map firstChar) else none

/-- The loop of lines 45 and 46: the constraint names `C0`, `C1`, ... -/
def constrNames (nrow : Nat) : List String :=
  (List.range nrow).map (fun i => "C" ++ to_string (Int.ofNat i))

/-- The loop of lines 58 and 59: `set(param_names[i], param_vals[i])` for every
`i < param_names.size()`. `param_vals` is indexed without a check. -/
def setParams (S : Solver) (param_names param_vals : List String) : Exec Unit :=
  forLoop (fun i _ => do
      let name ← orUndefined param_names[i]?
      let value ← orUndefined param_vals[i]?
      call S (Call.setParam name value))
    0 param_names.length ()

/-- Lines 63 to 73: the creation of the variables, by the presence of `lb` and `ub`.
A bound vector that is present is handed to the solver as the pointer `&lb[0]` or
`&ub[0]` with the count `ncol`; its length is not looked at.  The call records what can
be read of it, its first `ncol` elements, and the solver reads past its end when it is
shorter than `ncol`. -/
def addVars (S : Solver) (lb ub obj : List ℚ) (vtype_char : List Char) (ncol : Nat) :
    Exec Unit :=
  if decide (lb.length > 0) && decide (ub.length > 0) then
    callReading S (Call.addVars (some (lb.take ncol)) (some (ub.take ncol)) obj vtype_char ncol)
      (decide (ncol ≤ lb.length) && decide (ncol ≤ ub.length))
  else if decide (lb.length > 0) && decide (ub.length = 0) then
    callReading S (Call.addVars (some (lb.take ncol)) none obj vtype_char ncol)
      (decide (ncol ≤ lb.length))
  else if decide (lb.length = 0) && decide (ub.length > 0) then
    callReading S (Call.addVars none (some (ub.take ncol)) obj vtype_char ncol)
      (decide (ncol ≤ ub.length))
  else if decide (lb.length = 0) && decide (ub.length = 0) then
    call S (Call.addVars none none obj vtype_char ncol)
  else
    Rf_error "Error processing lb and ub data"

/-- Lines 76 to 80: the value given to the `ModelSense` attribute. -/
def modelSenseValue (modelsense : String) : Int :=
  if modelsense = "min" then 1 else -1

/-- The statement `a[i] = f (a[i])` on an array; the index must be in bounds. -/
def updateAt {α : Type} (a : List α) (i : Nat) (f : α → α) : Option (List α) :=
  match a[i]? with
  | some x => some (a.set i (f x))
  | none => none

/-- The loop of lines 88 to 90, from triplet `i` on, for `count` triplets:
`lhs_grb[A_rows[i]] += A_vals[i] * vars_grb[A_cols[i]]`.  None of the four
accesses is checked: `A_cols` and `A_vals` must reach index `i`, the row must
index the `nrow` expressions and the column the `ncol` variables. -/
def assembleLoop (A_rows A_cols : List Int) (A_vals : List ℚ) (nrow ncol : Nat) :
    Nat → Nat → List GRBLinExpr → Option (List GRBLinExpr)
  | _, 0, lhs => some lhs
  | i, count + 1, lhs =>
    match A_rows[i]?, A_cols[i]?, A_vals[i]? with
    | some r, some c, some v =>
      if 0 ≤ r ∧ r < nrow ∧ 0 ≤ c ∧ c < ncol then
        match updateAt lhs r.toNat (fun e => e.add (GRBLinExpr.term v c.toNat)) with
        | some lhs1 => assembleLoop A_rows A_cols A_vals nrow ncol (i + 1) count lhs1
        | none => none
      else none
    | _, _, _ => none

/-- Lines 85 to 90: the `nrow` expressions, all set to zero and then filled from the
triplets. -/
def assemble (A_rows A_cols : List Int) (A_vals : List ℚ) (nrow ncol : Nat) :
    Option (List GRBLinExpr) :=
  assembleLoop A_rows A_cols A_vals nrow ncol 0 A_rows.length
    (List.replicate nrow GRBLinExpr.zero)

/-- Modelled from the spec: the status code `GRB_OPTIMAL` of the solver library header
(gurobi_c++.h, which is not part of the repository).  Its value is the case label that
the switch of lines 129 to 160 pairs with `"OPTIMAL"`. -/
def GRB_OPTIMAL : Int := 2

/-- Modelled from the spec: the status code `GRB_INFEASIBLE` of the solver library
header; its value is the case label of `"INFEASIBLE"` on lines 134 and 135. -/
def GRB_INFEASIBLE : Int := 3

/-- Modelled from the spec: the status code `GRB_INF_OR_UNBD` of the solver library
header; its value is the case label of `"INF_OR_UNBD"` on lines 136 and 137. -/
def GRB_INF_OR_UNBD : Int := 4

/-- Modelled from the spec: the status code `GRB_UNBOUNDED` of the solver library
header; its value is the case label of `"UNBOUNDED"` on lines 138 and 139. -/
def GRB_UNBOUNDED : Int := 5

/-- The conversion `static_cast<std::size_t>` of an `int`: modulo `2^64`. -/
def size_t_of_int (v : Int) : Nat := (v % (2 ^ 64 : Int)).toNat

/-- The switch of lines 129 to 160. -/
def statusLabel (code : Int) : String :=
  if code = 1 then "LOADED"
  else if code = 2 then "OPTIMAL"
  else if code = 3 then "INFEASIBLE"
  else if code = 4 then "INF_OR_UNBD"
  else if code = 5 then "UNBOUNDED"
  else if code = 6 then "CUTOFF"
  else if code = 7 then "ITERATION_LIMIT"
  else if code = 8 then "NODE_LIMIT"
  else if code = 9 then "TIME_LIMIT"
  else if code = 10 then "SOLUTION_LIMIT"
  else if code = 11 then "INTERRUPTED"
  else if code = 12 then "NUMERIC"
  else if code = 13 then "SUBOPTIMAL"
  else if code = 14 then "INPROGRESS"
  else "UNKNOWN_ERROR"

/-- The matrix built by `Rcpp::NumericMatrix x(n, ncol)`: all zero. -/
def NumericMatrix.zeros (n ncol : Nat) : NumericMatrix :=
  ⟨n, ncol, List.replicate n (List.replicate ncol 0)⟩

/-- The entry `x(k, j)`. -/
def NumericMatrix.at (x : NumericMatrix) (k j : Nat) : Option ℚ :=
  match x.rows[k]? with
  | some row => row[j]?
  | none => none

/-- The assignment `x(k, j) = v`. -/
def NumericMatrix.set (x : NumericMatrix) (k j : Nat) (v : ℚ) : NumericMatrix :=
  { x with rows := x.rows.set k ((x.rows.getD k []).set j v) }

/-- The body of the inner loop, lines 124 and 125, for solution `k` and variable `j`. -/
def extractVar (S : Solver) (k j : Nat) (st : List ℚ × NumericMatrix) :
    Exec (List ℚ × NumericMatrix) := do
  let o ← query S (Call.getObj j) (S.obj j)
  let v ← query S (Call.getXn j) (S.xn k j)
  let objval := st.1.set k (st.1.getD k 0 + o * v)
  let w ← query S (Call.getXn j) (S.xn k j)
  let x := st.2.set k j w
  pure (objval, x)

/-- The body of the outer loop, lines 120 to 126, for solution `k`. -/
def extractSolution (S : Solver) (ncol k : Nat) (st : List ℚ × NumericMatrix) :
    Exec (List ℚ × NumericMatrix) := do
  call S (Call.setSolutionNumber k)
  let objval := st.1.set k 0
  forLoop (extractVar S k) 0 ncol (objval, st.2)

/-- Lines 111 to 183: the extraction of the solutions and the full result. -/
def exportResult (S : Solver) (ncol NumberSolutions : Nat) (verbose : Bool) :
    Exec RList := do
  say verbose "Exports\n"
  say verbose "\textracting solutions\n"
  let solCount ← query S Call.getSolCount S.solCount
  let NumberSolutions := min (size_t_of_int solCount) NumberSolutions
  let x := NumericMatrix.zeros NumberSolutions ncol
  let objval : List ℚ := List.replicate NumberSolutions 0
  let (objval, x) ← forLoop (extractSolution S ncol) 0 NumberSolutions (objval, x)
  let status ← query S Call.getStatus S.status2
  let modelstatus := statusLabel status
  let runtime ← query S Call.getRuntime S.runtime
  let itercount ← query S Call.getIterCount S.iterCount
  let baritercount ← query S Call.getBarIterCount (S.barIterCount : ℚ)
  let nodecount ← query S Call.getNodeCount S.nodeCount
  say verbose "\tgarbage collection\n"
  say verbose "\treturning results\n"
  pure [("status", Value.str modelstatus), ("runtime", Value.num runtime),
    ("itercount", Value.num itercount), ("baritercount", Value.num baritercount),
    ("nodecount", Value.num nodecount), ("objval", Value.vec objval), ("x", Value.mat x)]

/-- Lines 17 to 99 of `solve_gurobi`: the model is loaded, handed to the solver and
optimized, and the solver status is read.  The value is the pair of `ncol` and
`optimstatus`. -/
def optimizeModel (S : Solver) (model : Model) (param_names param_vals : List String)
    (verbose : Bool) : Exec (Nat × Int) := do
  say verbose "\nInitialization\n"
  say verbose "Preliminary processing\n"
  say verbose "\tloading data\n"
  say verbose "\tstoring helper vars\n"
  let ncol := model.obj.length
  let nrow := model.rhs.length
  say verbose "\tcreating native c objects\n"
  let vtype_char ← orUndefined (firstChars model.vtype ncol)
  let sense_char ← orUndefined (firstChars model.sense nrow)
  let names := constrNames nrow
  say verbose "\tinitializing grb object\n"
  call S Call.newEnv
  call S Call.newModel
  call S (Call.setModelName model.modelname)
  call S Call.update
  say verbose "\tadding parameters\n"
  setParams S param_names param_vals
  say verbose "\tadding vars\n"
  addVars S model.lb model.ub model.obj vtype_char ncol
  call S Call.update
  call S (Call.setModelSense (modelSenseValue model.modelsense))
  call S Call.update
  say verbose "\tadding constrs\n"
  let lhs_grb ← orUndefined (assemble model.A_rows model.A_cols model.A_vals nrow ncol)
  call S (Call.addConstrs lhs_grb sense_char model.rhs names nrow)
  call S Call.update
  say verbose "Main processing\n"
  call S Call.optimize
  let optimstatus ← query S Call.getStatus S.status1
  pure (ncol, optimstatus)

/-- Lines 100 to 183 of `solve_gurobi`: the early returns on a status other than
`GRB_OPTIMAL`, and the full result otherwise. -/
def reportResult (S : Solver) (ncol : Nat) (optimstatus : Int) (NumberSolutions : Nat)
    (verbose : Bool) : Exec RList :=
  if optimstatus = GRB_OPTIMAL then
    exportResult S ncol NumberSolutions verbose
  else if optimstatus = GRB_INF_OR_UNBD then
    pure [("status", Value.str "INFEASIBLE_OR_UNBOUNDED")]
  else if optimstatus = GRB_INFEASIBLE then
    pure [("status", Value.str "INFEASIBLE")]
  else if optimstatus = GRB_UNBOUNDED then
    pure [("status", Value.str "UNBOUNDED")]
  else
    pure [("status", Value.str ("ERROR_" ++ to_string optimstatus))]

/-- The function `solve_gurobi` (lines 15 to 184). -/
def solve_gurobi (S : Solver) (model : Model) (param_names param_vals : List String)
    (NumberSolutions : Nat) (verbose : Bool) : Exec RList := do
  let (ncol, optimstatus) ← optimizeModel S model param_names param_vals verbose
  reportResult S ncol optimstatus NumberSolutions verbose

/-! ## Reasoning about runs -/

/-- The outcome of `m` started in `s` satisfies `Q`. -/
def wp {α : Type} (m : Exec α) (Q : Except Abort α → St → Prop) (s : St) : Prop :=
  Q (m s).1 (m s).2

/-- Every call that `m` makes satisfies `P`, and every value it returns satisfies `R`. -/
def Sends {α : Type} (P : Call → Prop) (m : Exec α) (R : α → Prop) : Prop :=
  ∀ s, ∃ l, (m s).2.calls = s.calls ++ l ∧ (∀ c ∈ l, P c) ∧ ∀ a, (m s).1 = Except.ok a → R a

/-- Two computations that, started after the same calls, make the same calls and end
the same way; the log text may differ. -/
def Sim {α : Type} (m1 m2 : Exec α) : Prop :=
  ∀ s1 s2, s1.calls = s2.calls →
    (m1 s1).1 = (m2 s2).1 ∧ (m1 s1).2.calls = (m2 s2).2.calls

/-- No run of `m` ends with an error raised by `Rf_error`. -/
def NoFatal {α : Type} (m : Exec α) : Prop :=
  ∀ s msg, (m s).1 ≠ Except.error (Abort.fatal msg)

/-- What `optimizeModel` may send to the solver for a given model: the session
calls, any parameter, and the variables, the direction and the constraints as the
model gives them.  No other call is. -/
def BuildCall (model : Model) : Call → Prop
  | Call.newEnv => True
  | Call.newModel => True
  | Call.update => True
  | Call.optimize => True
  | Call.getStatus => True
  | Call.setParam _ _ => True
  | Call.setModelName name => name = model.modelname
  | Call.addVars lb ub obj vt n =>
    n = model.obj.length ∧ obj = model.obj ∧ firstChars model.vtype n = some vt ∧
      lb = (if model.lb = [] then none else some (model.lb.take n)) ∧
      ub = (if model.ub = [] then none else some (model.ub.take n))
  | Call.setModelSense v => v = modelSenseValue model.modelsense
  | Call.addConstrs lhs se rh nm n =>
    n = model.rhs.length ∧ assemble model.A_rows model.A_cols model.A_vals n model.obj.length = some lhs ∧
      firstChars model.sense n = some se ∧ rh = model.rhs ∧ nm = constrNames n
  | _ => False

/-- The calls made by `exportResult`: the reads and the selection of a pool entry. -/
def ExportCall : Call → Prop
  | Call.getSolCount => True
  | Call.setSolutionNumber _ => True
  | Call.getObj _ => True
  | Call.getXn _ => True
  | Call.getStatus => True
  | Call.getRuntime => True
  | Call.getIterCount => True
  | Call.getBarIterCount => True
  | Call.getNodeCount => True
  | _ => False

/-- The calls of the solution extraction of lines 115 to 127. -/
def ExtractionCall : Call → Prop
  | Call.getSolCount => True
  | Call.setSolutionNumber _ => True
  | Call.getObj _ => True
  | Call.getXn _ => True
  | _ => False

/-- The solver refuses some call of `exportResult` after some sequence of calls. -/
def Refuses (S : Solver) : Prop := ∃ h c, ExportCall c ∧ S.rejects h c = true

/-- The sum `obj 0 * xn k 0 + ... + obj (j-1) * xn k (j-1)` of what the solver reports,
accumulated from `0.0` in the order of the inner loop of lines 123 to 126. -/
def dotTo (S : Solver) (k j : Nat) : ℚ :=
  (List.range j).foldl (fun acc i => acc + S.obj i * S.xn k i) 0

/-- The pair `objval`, `x` has `n` entries and `n` rows of `ncol` columns. -/
def Shape (n ncol : Nat) (st : List ℚ × NumericMatrix) : Prop :=
  st.1.length = n ∧ st.2.nrow = n ∧ st.2.ncol = ncol ∧ st.2.rows.length = n ∧
    ∀ row ∈ st.2.rows, row.length = ncol

/-- The first `k` solutions are stored in the pair `objval`, `x`. -/
def RowsDone (S : Solver) (ncol k : Nat) (st : List ℚ × NumericMatrix) : Prop :=
  ∀ i, i < k → st.1[i]? = some (dotTo S i ncol) ∧
    ∀ j, j < ncol → st.2.at i j = some (S.xn i j)

/-- The terms that the first `i` triplets contribute to row `r`, in order. -/
def rowTerms (A_rows A_cols : List Int) (A_vals : List ℚ) (r i : Nat) : List (ℚ × Nat) :=
  ((List.range i).filter (fun t => A_rows.getD t 0 = (r : Int))).map
    (fun t => (A_vals.getD t 0, (A_cols.getD t 0).toNat))

/-- The expressions `lhs` hold what the first `i` triplets contribute. -/
def Assembled (A_rows A_cols : List Int) (A_vals : List ℚ) (nrow i : Nat)
    (lhs : List GRBLinExpr) : Prop :=
  lhs.length = nrow ∧ ∀ r, r < nrow → lhs[r]? = some ⟨0, rowTerms A_rows A_cols A_vals r i⟩

/-- The number written by a list of decimal digit characters. -/
def decodeDigits (l : List Char) : Nat → Nat :=
  fun acc => l.foldl (fun a ch => 10 * a + (ch.toNat - 48)) acc

/-! ## Sample data -/

/-- A sample solver: it refuses no call, answers the two given status codes, and holds
a pool of two solutions, `(0, 0)` and `(1, 2)`, of a model with objective `(3, 5)`. -/
def sampleSolver (status1 status2 : Int) : Solver :=
  ⟨fun _ _ => false, status1, status2, 2, fun j => [3, 5].getD j 0,
    fun k j => ([[0, 0], [1, 2]].getD k []).getD j 0, 0, 0, 0, 0⟩

/-- A sample model: two continuous variables, objective `3 x0 + 5 x1` to minimize, the
constraint `x0 + x1 <= 10` and a second constraint row without any triplet. -/
def sampleModel : Model :=
  ⟨[0, 0], [0, 1], [1, 1], [3, 5], [10, 4], [], [0, 0], ["C", "C"], ["<", ">"], "min", "sample"⟩

/-- What `solve_gurobi` returns on the sample model with the sample solver answering
`GRB_OPTIMAL` twice. -/
def sampleResult : RList :=
  [("status", Value.str "OPTIMAL"), ("runtime", Value.num 0), ("itercount", Value.num 0),
    ("baritercount", Value.num 0), ("nodecount", Value.num 0), ("objval", Value.vec [0, 13]),
    ("x", Value.mat ⟨2, 2, [[0, 0], [1, 2]]⟩)]

/-- The sample model with a lower-bound vector of three entries, one more than there
are variables. -/
def longBoundModel : Model :=
  ⟨[0, 0], [0, 1], [1, 1], [3, 5], [10, 4], [], [0, 0, 0], ["C", "C"], ["<", ">"], "min",
    "sample"⟩

/-- The sample model with a lower-bound vector of one entry, one less than there are
variables. -/
def shortBoundModel : Model :=
  ⟨[0, 0], [0, 1], [1, 1], [3, 5], [10, 4], [], [0], ["C", "C"], ["<", ">"], "min", "sample"⟩

/-! ## Lemmas on runs -/

theorem bind_apply {α β : Type} (m : Exec α) (f : α → Exec β) (s : St) :
    (m >>= f) s = Exec.bind m f s := rfl

theorem pure_apply {α : Type} (a : α) (s : St) : (pure a : Exec α) s = (Except.ok a, s) := rfl

theorem wp_bind {α β : Type} (m : Exec α) (f : α → Exec β) (Q : Except Abort β → St → Prop)
    (s : St) :
    wp (m >>= f) Q s ↔
      wp m (fun r s1 => match r with
        | Except.ok a => wp (f a) Q s1
        | Except.error e => Q (Except.error e) s1) s := by
  unfold wp
  rw [bind_apply]
  unfold Exec.bind
  rcases h : m s with ⟨r, s1⟩
  cases r <;> simp

theorem wp_pure {α : Type} (a : α) (Q : Except Abort α → St → Prop) (s : St) :
    wp (pure a) Q s ↔ Q (Except.ok a) s := Iff.rfl

theorem wp_say (v : Bool) (msg : String) (Q : Except Abort Unit → St → Prop) (s : St) :
    wp (say v msg) Q s ↔ Q (Except.ok ()) ⟨s.calls, s.log ++ (if v then [msg] else [])⟩ :=
  Iff.rfl

theorem wp_call (S : Solver) (c : Call) (Q : Except Abort Unit → St → Prop) (s : St) :
    wp (call S c) Q s ↔
      ((S.rejects s.calls c = true → Q (Except.error (Abort.solverError c)) ⟨s.calls ++ [c], s.log⟩) ∧
       (S.rejects s.calls c = false → Q (Except.ok ()) ⟨s.calls ++ [c], s.log⟩)) := by
  unfold wp call
  cases h : S.rejects s.calls c <;> simp

theorem wp_callReading (S : Solver) (c : Call) (fits : Bool)
    (Q : Except Abort Unit → St → Prop) (s : St) :
    wp (callReading S c fits) Q s ↔
      ((fits = false → Q (Except.error Abort.undefined) ⟨s.calls ++ [c], s.log⟩) ∧
       (fits = true → S.rejects s.calls c = true →
          Q (Except.error (Abort.solverError c)) ⟨s.calls ++ [c], s.log⟩) ∧
       (fits = true → S.rejects s.calls c = false → Q (Except.ok ()) ⟨s.calls ++ [c], s.log⟩)) := by
  unfold wp callReading
  cases fits <;> cases h : S.rejects s.calls c <;> simp

theorem wp_query {α : Type} (S : Solver) (c : Call) (ans : α) (Q : Except Abort α → St → Prop)
    (s : St) :
    wp (query S c ans) Q s ↔
      ((S.rejects s.calls c = true → Q (Except.error (Abort.solverError c)) ⟨s.calls ++ [c], s.log⟩) ∧
       (S.rejects s.calls c = false → Q (Except.ok ans) ⟨s.calls ++ [c], s.log⟩)) := by
  unfold wp query
  cases h : S.rejects s.calls c <;> simp

theorem wp_orUndefined {α : Type} (o : Option α) (Q : Except Abort α → St → Prop) (s : St) :
    wp (orUndefined o) Q s ↔
      ((o = none → Q (Except.error Abort.undefined) s) ∧ (∀ a, o = some a → Q (Except.ok a) s)) := by
  cases o <;> simp [wp, orUndefined, abort, Exec.pure]

theorem wp_abort {α : Type} (e : Abort) (Q : Except Abort α → St → Prop) (s : St) :
    wp (abort e) Q s ↔ Q (Except.error e) s := Iff.rfl

theorem wp_ite {α : Type} (c : Prop) [Decidable c] (m1 m2 : Exec α)
    (Q : Except Abort α → St → Prop) (s : St) :
    wp (if c then m1 else m2) Q s ↔ ((c → wp m1 Q s) ∧ (¬ c → wp m2 Q s)) := by
  by_cases h : c <;> simp [h]

theorem wp_mono {α : Type} (m : Exec α) (Q1 Q2 : Except Abort α → St → Prop) (s : St)
    (h : wp m Q1 s) (himp : ∀ r s1, Q1 r s1 → Q2 r s1) : wp m Q2 s := himp _ _ h

/-- Invariant rule for counted loops. -/
theorem wp_forLoop {σ : Type} (body : Nat → σ → Exec σ) (Inv : Nat → σ → St → Prop)
    (E : Abort → St → Prop) :
    ∀ (count lo : Nat) (st : σ) (s : St),
      (∀ i st s, lo ≤ i → i < lo + count → Inv i st s →
        wp (body i st) (fun r s1 => match r with
          | Except.ok st1 => Inv (i + 1) st1 s1
          | Except.error e => E e s1) s) →
      Inv lo st s →
      wp (forLoop body lo count st) (fun r s1 => match r with
        | Except.ok st1 => Inv (lo + count) st1 s1
        | Except.error e => E e s1) s := by
  intro count
  induction count with
  | zero => intro lo st s _ h; simpa [forLoop, wp, Exec.pure] using h
  | succ n ih =>
    intro lo st s hbody h
    have hb := hbody lo st s (Nat.le_refl lo) (by omega) h
    unfold forLoop
    unfold wp Exec.bind
    unfold wp at hb
    rcases hm : body lo st s with ⟨r, s1⟩
    rw [hm] at hb
    cases r with
    | error e => simpa using hb
    | ok st1 =>
      have := ih (lo + 1) st1 s1
        (fun i st2 s2 h1 h2 => hbody i st2 s2 (by omega) (by omega)) (by simpa using hb)
      unfold wp at this
      simp only []
      rw [show lo + (n + 1) = lo + 1 + n by omega]
      exact this

theorem setParams_spec (S : Solver) (pn pv : List String) (s : St) :
    wp (setParams S pn pv) (fun r s1 =>
      (∃ ps, s1.calls = s.calls ++ ps ∧ ∀ c ∈ ps, ∃ n v, c = Call.setParam n v) ∧
      s1.log = s.log ∧ ∀ msg, r ≠ Except.error (Abort.fatal msg)) s := by
  unfold setParams
  have key := wp_forLoop (fun i (_ : Unit) => do
      let name ← orUndefined pn[i]?
      let value ← orUndefined pv[i]?
      call S (Call.setParam name value))
    (fun _ _ s1 => (∃ ps, s1.calls = s.calls ++ ps ∧ ∀ c ∈ ps, ∃ n v, c = Call.setParam n v) ∧
      s1.log = s.log)
    (fun e s1 => ((∃ ps, s1.calls = s.calls ++ ps ∧ ∀ c ∈ ps, ∃ n v, c = Call.setParam n v) ∧
      s1.log = s.log) ∧ ∀ msg, e ≠ Abort.fatal msg)
    pn.length 0 () s
    (by
      intro i st s1 _ _ hinv
      obtain ⟨⟨ps, hps, hall⟩, hlog⟩ := hinv
      simp only [wp_bind, wp_orUndefined, wp_call]
      refine ⟨fun _ => ⟨⟨⟨ps, hps, hall⟩, hlog⟩, by simp⟩, ?_⟩
      intro name _
      refine ⟨fun _ => ⟨⟨⟨ps, hps, hall⟩, hlog⟩, by simp⟩, ?_⟩
      intro value _
      have hcalls : ∃ ps1, s1.calls ++ [Call.setParam name value] = s.calls ++ ps1 ∧
          ∀ c ∈ ps1, ∃ n v, c = Call.setParam n v := by
        refine ⟨ps ++ [Call.setParam name value], by simp [hps], ?_⟩
        intro c hc
        rcases List.mem_append.1 hc with h | h
        · exact hall c h
        · exact ⟨name, value, by simpa using h⟩
      exact ⟨fun _ => ⟨⟨hcalls, hlog⟩, by simp⟩, fun _ => ⟨hcalls, hlog⟩⟩)
    ⟨⟨[], by simp, by simp⟩, rfl⟩
  refine wp_mono _ _ _ _ key ?_
  intro r s1 h
  cases r with
  | ok a => exact ⟨h.1, h.2, by simp⟩
  | error e => exact ⟨h.1.1, h.1.2, by simpa using h.2⟩

theorem optimizeModel_value (S : Solver) (model : Model) (pn pv : List String) (v : Bool) (s : St) :
    wp (optimizeModel S model pn pv v) (fun r _ => (∀ a, r = Except.ok a → a = (model.obj.length, S.status1)) ∧ ∀ msg, r ≠ Except.error (Abort.fatal msg)) s := by
  unfold optimizeModel
  simp only [wp_bind, wp_say, wp_call, wp_query, wp_orUndefined, wp_pure]
  simp
  intro vt _ se _ _ _ _ _
  refine wp_mono _ _ _ _ (setParams_spec S pn pv _) ?_
  intro r s1 h
  obtain ⟨⟨ps, hps, hall⟩, hlog, hnf⟩ := h
  cases r with
  | error e => simpa using hnf
  | ok u =>
    simp only []
    unfold addVars
    simp only [wp_ite, wp_bind, wp_say, wp_call, wp_callReading, wp_query, wp_orUndefined,
      wp_pure, Rf_error, wp_abort]
    simp
    intro h1 h2 h3
    cases hl : model.lb <;> cases hu : model.ub <;> simp_all

theorem buildCall_addVars (model : Model) (lb ub : Option (List ℚ)) (obj : List ℚ)
    (vt : List Char) (n : Nat) :
    BuildCall model (Call.addVars lb ub obj vt n) ↔
      (n = model.obj.length ∧ obj = model.obj ∧ firstChars model.vtype n = some vt ∧
      lb = (if model.lb = [] then none else some (model.lb.take n)) ∧
      ub = (if model.ub = [] then none else some (model.ub.take n))) := by
  simp [BuildCall]

theorem buildCall_addConstrs (model : Model) (lhs : List GRBLinExpr) (se : List Char)
    (rh : List ℚ) (nm : List String) (n : Nat) :
    BuildCall model (Call.addConstrs lhs se rh nm n) ↔
      (n = model.rhs.length ∧
        assemble model.A_rows model.A_cols model.A_vals n model.obj.length = some lhs ∧
        firstChars model.sense n = some se ∧ rh = model.rhs ∧ nm = constrNames n) := by
  simp [BuildCall]

theorem sends_bind {α β : Type} {P : Call → Prop} {m : Exec α} {f : α → Exec β}
    {R1 : α → Prop} {R : β → Prop} (hm : Sends P m R1) (hf : ∀ a, R1 a → Sends P (f a) R) :
    Sends P (m >>= f) R := by
  intro s
  obtain ⟨l, hl, hP, hR⟩ := hm s
  rw [bind_apply]
  unfold Exec.bind
  rcases hms : m s with ⟨r, s1⟩
  rw [hms] at hl hR
  cases r with
  | error e => exact ⟨l, hl, hP, by simp⟩
  | ok a =>
    obtain ⟨l2, hl2, hP2, hR2⟩ := hf a (hR a rfl) s1
    refine ⟨l ++ l2, ?_, ?_, hR2⟩
    · simp only [] at hl
      simp only [hl2, hl, List.append_assoc]
    · intro c hc
      rcases List.mem_append.1 hc with h | h
      · exact hP c h
      · exact hP2 c h

theorem sends_pure {α : Type} {P : Call → Prop} {R : α → Prop} (a : α) (h : R a) :
    Sends P (pure a : Exec α) R := by
  intro s
  refine ⟨[], by simp [pure_apply], by simp, ?_⟩
  intro b hb
  simp only [pure_apply, Except.ok.injEq] at hb
  exact hb ▸ h

theorem sends_abort {α : Type} {P : Call → Prop} {R : α → Prop} (e : Abort) :
    Sends P (abort e : Exec α) R := by
  intro s
  exact ⟨[], by simp [abort], by simp, by simp [abort]⟩

theorem sends_say {P : Call → Prop} (v : Bool) (msg : String) :
    Sends P (say v msg) (fun _ => True) := by
  intro s
  exact ⟨[], by simp [say], by simp, by simp⟩

theorem sends_call {P : Call → Prop} (S : Solver) (c : Call) (h : P c) :
    Sends P (call S c) (fun _ => True) := by
  intro s
  exact ⟨[c], by simp [call], by simpa using h, by simp⟩

theorem sends_query {α : Type} {P : Call → Prop} (S : Solver) (c : Call) (ans : α) (h : P c) :
    Sends P (query S c ans) (fun a => a = ans) := by
  intro s
  refine ⟨[c], by simp [query], by simpa using h, ?_⟩
  intro a
  unfold query
  cases S.rejects s.calls c <;> simp [eq_comm]

theorem sends_orUndefined {α : Type} {P : Call → Prop} (o : Option α) :
    Sends P (orUndefined o) (fun a => o = some a) := by
  cases o with
  | none => exact sends_abort _
  | some a => exact sends_pure a rfl

theorem sends_forLoop {σ : Type} {P : Call → Prop} (body : Nat → σ → Exec σ)
    (hbody : ∀ i st, Sends P (body i st) (fun _ => True)) :
    ∀ (count lo : Nat) (st : σ), Sends P (forLoop body lo count st) (fun _ => True) := by
  intro count
  induction count with
  | zero => intro lo st; exact sends_pure (P := P) st trivial
  | succ n ih =>
    intro lo st
    exact sends_bind (hbody lo st) (fun st1 _ => ih (lo + 1) st1)

theorem sends_setParams (S : Solver) (P : Call → Prop) (pn pv : List String)
    (h : ∀ n v, P (Call.setParam n v)) : Sends P (setParams S pn pv) (fun _ => True) := by
  unfold setParams
  apply sends_forLoop
  intro i _
  refine sends_bind (sends_orUndefined _) (fun name _ => ?_)
  refine sends_bind (sends_orUndefined _) (fun value _ => ?_)
  exact sends_call S _ (h name value)

theorem sends_callReading {P : Call → Prop} (S : Solver) (c : Call) (fits : Bool) (h : P c) :
    Sends P (callReading S c fits) (fun _ => True) := by
  intro s
  exact ⟨[c], by simp [callReading], by simpa using h, by simp⟩

theorem sends_addVars (S : Solver) (model : Model) (vt : List Char)
    (hvt : firstChars model.vtype model.obj.length = some vt) :
    Sends (BuildCall model) (addVars S model.lb model.ub model.obj vt model.obj.length)
      (fun _ => True) := by
  unfold addVars
  split
  · rename_i h
    simp at h
    apply sends_callReading
    have h1 : model.lb ≠ [] := List.length_pos.1 h.1
    have h2 : model.ub ≠ [] := List.length_pos.1 h.2
    simp [buildCall_addVars, hvt, h1, h2]
  · split
    · rename_i h
      simp at h
      apply sends_callReading
      have h1 : model.lb ≠ [] := List.length_pos.1 h.1
      simp [buildCall_addVars, hvt, h1, h.2]
    · split
      · rename_i h
        simp at h
        apply sends_callReading
        have h2 : model.ub ≠ [] := List.length_pos.1 h.2
        simp [buildCall_addVars, hvt, h2, h.1]
      · split
        · rename_i h
          simp at h
          apply sends_call
          simp [buildCall_addVars, hvt, h.1, h.2]
        · exact sends_abort _

theorem optimizeModel_sends (S : Solver) (model : Model) (pn pv : List String) (v : Bool) :
    Sends (BuildCall model) (optimizeModel S model pn pv v)
      (fun a => a = (model.obj.length, S.status1)) := by
  unfold optimizeModel
  refine sends_bind (sends_say _ _) (fun _ _ => ?_)
  refine sends_bind (sends_say _ _) (fun _ _ => ?_)
  refine sends_bind (sends_say _ _) (fun _ _ => ?_)
  refine sends_bind (sends_say _ _) (fun _ _ => ?_)
  refine sends_bind (sends_say _ _) (fun _ _ => ?_)
  refine sends_bind (sends_orUndefined _) (fun vt hvt => ?_)
  refine sends_bind (sends_orUndefined _) (fun se hse => ?_)
  refine sends_bind (sends_say _ _) (fun _ _ => ?_)
  refine sends_bind (sends_call S _ (by simp [BuildCall])) (fun _ _ => ?_)
  refine sends_bind (sends_call S _ (by simp [BuildCall])) (fun _ _ => ?_)
  refine sends_bind (sends_call S _ (by simp [BuildCall])) (fun _ _ => ?_)
  refine sends_bind (sends_call S _ (by simp [BuildCall])) (fun _ _ => ?_)
  refine sends_bind (sends_say _ _) (fun _ _ => ?_)
  refine sends_bind (sends_setParams S _ pn pv (by simp [BuildCall])) (fun _ _ => ?_)
  refine sends_bind (sends_say _ _) (fun _ _ => ?_)
  refine sends_bind (sends_addVars S model vt hvt) (fun _ _ => ?_)
  refine sends_bind (sends_call S _ (by simp [BuildCall])) (fun _ _ => ?_)
  refine sends_bind (sends_call S _ (by simp [BuildCall])) (fun _ _ => ?_)
  refine sends_bind (sends_call S _ (by simp [BuildCall])) (fun _ _ => ?_)
  refine sends_bind (sends_say _ _) (fun _ _ => ?_)
  refine sends_bind (sends_orUndefined _) (fun lhs hlhs => ?_)
  refine sends_bind (sends_call S _ (by simp [buildCall_addConstrs, hlhs, hse])) (fun _ _ => ?_)
  refine sends_bind (sends_call S _ (by simp [BuildCall])) (fun _ _ => ?_)
  refine sends_bind (sends_say _ _) (fun _ _ => ?_)
  refine sends_bind (sends_call S _ (by simp [BuildCall])) (fun _ _ => ?_)
  refine sends_bind (sends_query S _ _ (by simp [BuildCall])) (fun st hst => ?_)
  exact sends_pure _ (by rw [hst])

theorem optimizeModel_present (S : Solver) (model : Model) (pn pv : List String) (v : Bool) :
    wp (optimizeModel S model pn pv v) (fun r s1 =>
      ∀ a, r = Except.ok a →
        Call.setModelSense (modelSenseValue model.modelsense) ∈ s1.calls ∧
        (∃ lhs se, Call.addConstrs lhs se model.rhs (constrNames model.rhs.length)
          model.rhs.length ∈ s1.calls) ∧
        (∃ lb ub vt, Call.addVars lb ub model.obj vt model.obj.length ∈ s1.calls))
      ⟨[], []⟩ := by
  unfold optimizeModel
  simp only [wp_bind, wp_say, wp_call, wp_query, wp_orUndefined, wp_pure]
  simp
  intro vt _ se _ _ _ _ _
  refine wp_mono _ _ _ _ (setParams_spec S pn pv _) ?_
  intro r s1 h
  obtain ⟨⟨ps, hps, hall⟩, hlog, hnf⟩ := h
  cases r with
  | error e => simp
  | ok u =>
    simp only []
    unfold addVars
    simp only [wp_ite, wp_bind, wp_say, wp_call, wp_callReading, wp_query, wp_orUndefined,
      wp_pure, Rf_error, wp_abort]
    simp
    repeat' (first
      | exact ⟨_, _, Or.inr ⟨rfl, rfl⟩⟩
      | exact ⟨_, _, _, Or.inr ⟨rfl, rfl, rfl⟩⟩
      | exact ⟨_, _, _, Or.inr ⟨rfl, rfl⟩⟩
      | exact ⟨_, _, _, Or.inr rfl⟩
      | intro _
      | refine And.intro ?_ ?_)

theorem optimizeModel_head (S : Solver) (model : Model) (pn pv : List String) (v : Bool) :
    wp (optimizeModel S model pn pv v) (fun _ s1 =>
      firstChars model.vtype model.obj.length ≠ none →
        firstChars model.sense model.rhs.length ≠ none → s1.calls.head? = some Call.newEnv)
      ⟨[], []⟩ := by
  unfold optimizeModel
  simp only [wp_bind, wp_say, wp_call, wp_query, wp_orUndefined, wp_pure]
  simp
  refine ⟨fun h1 h2 => absurd h1 h2, ?_⟩
  intro vt hvt
  refine ⟨fun h1 _ => h1, ?_⟩
  intro se hse _ _ _ _
  refine wp_mono _ _ _ _ (setParams_spec S pn pv _) ?_
  intro r s1 h
  obtain ⟨⟨ps, hps, hall⟩, hlog, hnf⟩ := h
  simp only [List.nil_append] at hps
  cases r with
  | error e => simp [hps]
  | ok u =>
    simp only []
    unfold addVars
    simp only [wp_ite, wp_bind, wp_say, wp_call, wp_callReading, wp_query, wp_orUndefined,
      wp_pure, Rf_error, wp_abort]
    simp [hps]

theorem dotTo_succ (S : Solver) (k j : Nat) :
    dotTo S k (j + 1) = dotTo S k j + S.obj j * S.xn k j := by
  simp [dotTo, List.range_succ]

theorem at_set_row_ne (x : NumericMatrix) (k j i l : Nat) (v : ℚ) (h : k ≠ i) :
    (x.set k j v).at i l = x.at i l := by
  simp [NumericMatrix.at, NumericMatrix.set, List.getElem?_set_ne h]

theorem at_set_col_ne (x : NumericMatrix) (k j l : Nat) (v : ℚ) (h : j ≠ l)
    (hk : k < x.rows.length) : (x.set k j v).at k l = x.at k l := by
  simp [NumericMatrix.at, NumericMatrix.set, List.getElem?_set_self hk,
    List.getElem?_set_ne h, List.getElem?_eq_getElem hk]

theorem at_set_self (x : NumericMatrix) (k j : Nat) (v : ℚ) (hk : k < x.rows.length)
    (hj : j < (x.rows.getD k []).length) : (x.set k j v).at k j = some v := by
  simp only [List.getD_eq_getElem?_getD] at hj
  simp [NumericMatrix.at, NumericMatrix.set, List.getElem?_set_self hk,
    List.getElem?_set_self hj]

theorem shape_set (n ncol k j : Nat) (v a : ℚ) (st : List ℚ × NumericMatrix)
    (h : Shape n ncol st) : Shape n ncol (st.1.set k a, st.2.set k j v) := by
  obtain ⟨h1, h2, h3, h4, h5⟩ := h
  refine ⟨by simpa using h1, h2, h3, by simpa [NumericMatrix.set] using h4, ?_⟩
  intro row hrow
  simp only [NumericMatrix.set] at hrow
  by_cases hk : k < st.2.rows.length
  · rcases List.mem_or_eq_of_mem_set hrow with hr | hr
    · exact h5 row hr
    · subst hr
      rw [List.length_set]
      have : st.2.rows.getD k [] ∈ st.2.rows := by
        simp [List.getD_eq_getElem?_getD, List.getElem?_eq_getElem hk]
      exact h5 _ this
  · rw [List.set_eq_of_length_le (by omega)] at hrow
    exact h5 row hrow

theorem shape_set_objval (n ncol k : Nat) (a : ℚ) (st : List ℚ × NumericMatrix)
    (h : Shape n ncol st) : Shape n ncol (st.1.set k a, st.2) := by
  obtain ⟨h1, h2, h3, h4, h5⟩ := h
  exact ⟨by simpa using h1, h2, h3, h4, h5⟩

theorem shape_zeros (n ncol : Nat) :
    Shape n ncol (List.replicate n 0, NumericMatrix.zeros n ncol) := by
  refine ⟨by simp, rfl, rfl, by simp [NumericMatrix.zeros], ?_⟩
  intro row hrow
  simp only [NumericMatrix.zeros] at hrow
  rw [List.eq_of_mem_replicate hrow]
  simp

theorem row_length_of_shape (n ncol k : Nat) (st : List ℚ × NumericMatrix)
    (h : Shape n ncol st) (hk : k < n) : (st.2.rows.getD k []).length = ncol := by
  obtain ⟨_, _, _, h4, h5⟩ := h
  have hk2 : k < st.2.rows.length := by omega
  apply h5
  simp [List.getD_eq_getElem?_getD, List.getElem?_eq_getElem hk2]

/-- One pass of the inner loop body stores one more variable of solution `k`. -/
theorem extractVar_spec (S : Solver) (n ncol k : Nat) (hk : k < n) (j : Nat) (hj : j < ncol)
    (st : List ℚ × NumericMatrix) (s : St)
    (hinv : Shape n ncol st ∧ RowsDone S ncol k st ∧ st.1[k]? = some (dotTo S k j) ∧
      ∀ l, l < j → st.2.at k l = some (S.xn k l)) :
    wp (extractVar S k j st) (fun r _ => match r with
      | Except.ok st1 => Shape n ncol st1 ∧ RowsDone S ncol k st1 ∧
          st1.1[k]? = some (dotTo S k (j + 1)) ∧ ∀ l, l < j + 1 → st1.2.at k l = some (S.xn k l)
      | Except.error _ => Refuses S) s := by
  obtain ⟨hshape, hdone, hobj, hrow⟩ := hinv
  unfold extractVar
  simp only [wp_bind, wp_query, wp_pure]
  refine ⟨fun h => ⟨_, _, by simp [ExportCall], h⟩, fun _ =>
    ⟨fun h => ⟨_, _, by simp [ExportCall], h⟩, fun _ =>
      ⟨fun h => ⟨_, _, by simp [ExportCall], h⟩, fun _ => ?_⟩⟩⟩
  have hlen : k < st.1.length := by rw [hshape.1]; exact hk
  have hrows : k < st.2.rows.length := by rw [hshape.2.2.2.1]; exact hk
  have hrl := row_length_of_shape n ncol k st hshape hk
  refine ⟨shape_set n ncol k j _ _ st hshape, ?_, ?_, ?_⟩
  · intro i hi
    have hne : k ≠ i := by omega
    refine ⟨?_, ?_⟩
    · simp only [List.getElem?_set_ne hne]
      exact (hdone i hi).1
    · intro l hl
      rw [at_set_row_ne _ _ _ _ _ _ hne]
      exact (hdone i hi).2 l hl
  · simp only [List.getElem?_set_self hlen, dotTo_succ, List.getD_eq_getElem?_getD, hobj,
      Option.getD_some]
  · intro l hl
    by_cases hlj : l = j
    · subst hlj
      exact at_set_self _ _ _ _ hrows (by rw [hrl]; exact hj)
    · rw [at_set_col_ne _ _ _ _ _ (fun h => hlj h.symm) hrows]
      exact hrow l (by omega)

/-- One pass of the outer loop body stores solution `k`. -/
theorem extractSolution_spec (S : Solver) (n ncol k : Nat) (hk : k < n)
    (st : List ℚ × NumericMatrix) (s : St)
    (hinv : Shape n ncol st ∧ RowsDone S ncol k st) :
    wp (extractSolution S ncol k st) (fun r _ => match r with
      | Except.ok st1 => Shape n ncol st1 ∧ RowsDone S ncol (k + 1) st1
      | Except.error _ => Refuses S) s := by
  obtain ⟨hshape, hdone⟩ := hinv
  unfold extractSolution
  simp only [wp_bind, wp_call]
  refine ⟨fun h => ⟨_, _, by simp [ExportCall], h⟩, fun _ => ?_⟩
  have hlen : k < st.1.length := by rw [hshape.1]; exact hk
  have key := wp_forLoop (extractVar S k)
    (fun j st1 _ => Shape n ncol st1 ∧ RowsDone S ncol k st1 ∧
      st1.1[k]? = some (dotTo S k j) ∧ ∀ l, l < j → st1.2.at k l = some (S.xn k l))
    (fun _ _ => Refuses S) ncol 0 (st.1.set k 0, st.2)
    ⟨s.calls ++ [Call.setSolutionNumber k], s.log⟩
    (fun j st1 s1 _ hj h => wp_mono _ _ _ _
      (extractVar_spec S n ncol k hk j (by omega) st1 s1 h)
      (fun r _ hr => by cases r <;> exact hr))
    ⟨shape_set_objval n ncol k 0 st hshape, by
      intro i hi
      have hne : k ≠ i := by omega
      exact ⟨by simpa only [List.getElem?_set_ne hne] using (hdone i hi).1, (hdone i hi).2⟩,
      by simp [List.getElem?_set_self hlen, dotTo], by intro l hl; omega⟩
  refine wp_mono _ _ _ _ key ?_
  intro r s1 h
  cases r with
  | error e => exact h
  | ok st1 =>
    obtain ⟨h1, h2, h3, h4⟩ := h
    refine ⟨h1, ?_⟩
    intro i hi
    by_cases hik : i = k
    · subst hik
      exact ⟨by simpa using h3, fun j hj => h4 j (by omega)⟩
    · exact h2 i (by omega)

/-- The two nested loops store every solution. -/
theorem extractLoop_spec (S : Solver) (n ncol : Nat) (s : St) :
    wp (forLoop (extractSolution S ncol) 0 n (List.replicate n 0, NumericMatrix.zeros n ncol))
      (fun r _ => match r with
        | Except.ok st1 => Shape n ncol st1 ∧ RowsDone S ncol n st1
        | Except.error _ => Refuses S) s := by
  have key := wp_forLoop (extractSolution S ncol)
    (fun k st1 _ => Shape n ncol st1 ∧ RowsDone S ncol k st1) (fun _ _ => Refuses S)
    n 0 (List.replicate n 0, NumericMatrix.zeros n ncol) s
    (fun k st1 s1 _ hk h => wp_mono _ _ _ _
      (extractSolution_spec S n ncol k (by omega) st1 s1 h)
      (fun r _ hr => by cases r <;> exact hr))
    ⟨shape_zeros n ncol, by intro i hi; omega⟩
  refine wp_mono _ _ _ _ key ?_
  intro r s1 h
  cases r with
  | error e => exact h
  | ok st1 => simpa using h

/-- The value of `exportResult`: the seven entries, with every solution stored; it
aborts only when the solver refuses one of its calls. -/
theorem exportResult_spec (S : Solver) (ncol N : Nat) (v : Bool) (s : St) :
    wp (exportResult S ncol N v) (fun r _ => match r with
      | Except.ok res =>
        ∃ objval x, res = [("status", Value.str (statusLabel S.status2)),
          ("runtime", Value.num S.runtime), ("itercount", Value.num S.iterCount),
          ("baritercount", Value.num (S.barIterCount : ℚ)), ("nodecount", Value.num S.nodeCount),
          ("objval", Value.vec objval), ("x", Value.mat x)] ∧
        Shape (min (size_t_of_int S.solCount) N) ncol (objval, x) ∧
        RowsDone S ncol (min (size_t_of_int S.solCount) N) (objval, x)
      | Except.error _ => Refuses S) s := by
  unfold exportResult
  simp only [wp_bind, wp_say, wp_query]
  refine ⟨fun h => ⟨_, _, by simp [ExportCall], h⟩, fun _ => ?_⟩
  refine wp_mono _ _ _ _ (extractLoop_spec S _ ncol _) ?_
  intro r s1 h
  cases r with
  | error e => exact h
  | ok st1 =>
    obtain ⟨O, X⟩ := st1
    simp only [wp_bind, wp_say, wp_query, wp_pure]
    refine ⟨fun h => ⟨_, _, by simp [ExportCall], h⟩, fun _ =>
      ⟨fun h => ⟨_, _, by simp [ExportCall], h⟩, fun _ =>
        ⟨fun h => ⟨_, _, by simp [ExportCall], h⟩, fun _ =>
          ⟨fun h => ⟨_, _, by simp [ExportCall], h⟩, fun _ =>
            ⟨fun h => ⟨_, _, by simp [ExportCall], h⟩, fun _ => ⟨O, X, rfl, h⟩⟩⟩⟩⟩⟩

theorem rowTerms_succ (A_rows A_cols : List Int) (A_vals : List ℚ) (r i : Nat) :
    rowTerms A_rows A_cols A_vals r (i + 1) = rowTerms A_rows A_cols A_vals r i ++
      (if A_rows.getD i 0 = (r : Int) then [(A_vals.getD i 0, (A_cols.getD i 0).toNat)]
        else []) := by
  unfold rowTerms
  rw [List.range_succ, List.filter_append, List.map_append]
  by_cases h : A_rows.getD i 0 = (r : Int)
  · rw [if_pos h]
    simp only [List.filter_cons, h, decide_True, if_true, List.filter_nil, List.map_cons,
      List.map_nil]
  · rw [if_neg h]
    simp only [List.filter_cons, h, decide_False, List.filter_nil, List.map_nil,
      List.append_nil]
    simp

theorem updateAt_eq_some {α : Type} (a b : List α) (i : Nat) (f : α → α) :
    updateAt a i f = some b ↔ ∃ x, a[i]? = some x ∧ b = a.set i (f x) := by
  unfold updateAt
  cases h : a[i]? <;> simp [eq_comm]

/-- One pass of the assembling loop. -/
theorem assembled_step (A_rows A_cols : List Int) (A_vals : List ℚ) (nrow i : Nat)
    (lhs lhs1 : List GRBLinExpr) (r c : Int) (v : ℚ)
    (hr : A_rows[i]? = some r) (hc : A_cols[i]? = some c) (hv : A_vals[i]? = some v)
    (hr0 : 0 ≤ r)
    (hup : updateAt lhs r.toNat (fun e => e.add (GRBLinExpr.term v c.toNat)) = some lhs1)
    (hinv : Assembled A_rows A_cols A_vals nrow i lhs) :
    Assembled A_rows A_cols A_vals nrow (i + 1) lhs1 := by
  obtain ⟨hlen, hrows⟩ := hinv
  obtain ⟨x, hx, rfl⟩ := (updateAt_eq_some _ _ _ _).1 hup
  refine ⟨by simpa using hlen, ?_⟩
  intro q hq
  have hgr : A_rows.getD i 0 = r := by simp [List.getD_eq_getElem?_getD, hr]
  have hgc : A_cols.getD i 0 = c := by simp [List.getD_eq_getElem?_getD, hc]
  have hgv : A_vals.getD i 0 = v := by simp [List.getD_eq_getElem?_getD, hv]
  rw [rowTerms_succ, hgr, hgc, hgv]
  by_cases hq2 : r.toNat = q
  · have hrq : r = (q : Int) := by omega
    have hlt : r.toNat < lhs.length := by omega
    subst hq2
    rw [List.getElem?_set_self hlt]
    have := hrows r.toNat hq
    rw [hx] at this
    simp only [Option.some.injEq] at this
    subst this
    rw [if_pos hrq]
    simp [GRBLinExpr.add, GRBLinExpr.term]
  · have hrq : ¬ r = (q : Int) := by omega
    rw [List.getElem?_set_ne hq2, hrows q hq, if_neg hrq, List.append_nil]

theorem assembleLoop_inv (A_rows A_cols : List Int) (A_vals : List ℚ) (nrow ncol : Nat) :
    ∀ (count i : Nat) (lhs lhs1 : List GRBLinExpr),
      assembleLoop A_rows A_cols A_vals nrow ncol i count lhs = some lhs1 →
      Assembled A_rows A_cols A_vals nrow i lhs →
      Assembled A_rows A_cols A_vals nrow (i + count) lhs1 := by
  intro count
  induction count with
  | zero =>
    intro i lhs lhs1 h hinv
    simp only [assembleLoop, Option.some.injEq] at h
    subst h
    exact hinv
  | succ n ih =>
    intro i lhs lhs1 h hinv
    unfold assembleLoop at h
    cases hr : A_rows[i]? with
    | none => simp [hr] at h
    | some r =>
      cases hc : A_cols[i]? with
      | none => simp [hr, hc] at h
      | some c =>
        cases hv : A_vals[i]? with
        | none => simp [hr, hc, hv] at h
        | some v =>
          simp only [hr, hc, hv] at h
          split at h
          · rename_i hcond
            cases hup : updateAt lhs r.toNat (fun e => e.add (GRBLinExpr.term v c.toNat)) with
            | none => simp [hup] at h
            | some lhs2 =>
              simp only [hup] at h
              have := ih (i + 1) lhs2 lhs1 h
                (assembled_step A_rows A_cols A_vals nrow i lhs lhs2 r c v hr hc hv hcond.1 hup hinv)
              rw [show i + (n + 1) = i + 1 + n by omega]
              exact this
          · simp at h

theorem assembleLoop_some (A_rows A_cols : List Int) (A_vals : List ℚ) (nrow ncol : Nat)
    (hlen1 : A_rows.length = A_cols.length) (hlen2 : A_cols.length = A_vals.length)
    (hrows : ∀ r ∈ A_rows, 0 ≤ r ∧ r < nrow) (hcols : ∀ c ∈ A_cols, 0 ≤ c ∧ c < ncol) :
    ∀ (count i : Nat) (lhs : List GRBLinExpr), i + count ≤ A_rows.length →
      lhs.length = nrow →
      ∃ lhs1, assembleLoop A_rows A_cols A_vals nrow ncol i count lhs = some lhs1 := by
  intro count
  induction count with
  | zero => intro i lhs _ _; exact ⟨lhs, rfl⟩
  | succ n ih =>
    intro i lhs hi hl
    have h1 : i < A_rows.length := by omega
    have h2 : i < A_cols.length := by omega
    have h3 : i < A_vals.length := by omega
    have hr := hrows A_rows[i] (List.getElem_mem _)
    have hc := hcols A_cols[i] (List.getElem_mem _)
    have hlt : (A_rows[i]).toNat < lhs.length := by omega
    unfold assembleLoop
    simp only [List.getElem?_eq_getElem h1, List.getElem?_eq_getElem h2,
      List.getElem?_eq_getElem h3]
    rw [if_pos ⟨hr.1, hr.2, hc.1, hc.2⟩]
    simp only [updateAt, List.getElem?_eq_getElem hlt]
    exact ih (i + 1) _ (by omega) (by simpa using hl)

theorem assembled_zero (A_rows A_cols : List Int) (A_vals : List ℚ) (nrow : Nat) :
    Assembled A_rows A_cols A_vals nrow 0 (List.replicate nrow GRBLinExpr.zero) := by
  refine ⟨by simp, ?_⟩
  intro r hr
  simp [List.getElem?_replicate, hr, rowTerms, GRBLinExpr.zero]

/-- What `assemble` returns holds the contribution of every triplet. -/
theorem assemble_assembled (A_rows A_cols : List Int) (A_vals : List ℚ) (nrow ncol : Nat)
    (lhs : List GRBLinExpr) (h : assemble A_rows A_cols A_vals nrow ncol = some lhs) :
    Assembled A_rows A_cols A_vals nrow A_rows.length lhs := by
  have := assembleLoop_inv A_rows A_cols A_vals nrow ncol A_rows.length 0 _ lhs h
    (assembled_zero A_rows A_cols A_vals nrow)
  simpa using this

theorem coeff_rowTerms (A_rows A_cols : List Int) (A_vals : List ℚ) (r c n : Nat)
    (hn : n ≤ A_cols.length) (hcols : ∀ c ∈ A_cols, 0 ≤ c) :
    (GRBLinExpr.mk 0 (rowTerms A_rows A_cols A_vals r n)).coeff c =
      (((List.range n).filter
        (fun i => A_rows.getD i 0 = (r : Int) ∧ A_cols.getD i 0 = (c : Int))).map
        (fun i => A_vals.getD i 0)).sum := by
  unfold GRBLinExpr.coeff rowTerms
  simp only [List.filter_map, List.map_map, List.filter_filter]
  congr 1
  have hf : List.filter (fun a => ((fun t : ℚ × Nat => decide (t.2 = c)) ∘
        fun t => (A_vals.getD t 0, (A_cols.getD t 0).toNat)) a &&
        decide (A_rows.getD a 0 = (r : Int))) (List.range n) =
      List.filter (fun i => decide (A_rows.getD i 0 = (r : Int) ∧ A_cols.getD i 0 = (c : Int)))
        (List.range n) := by
    apply List.filter_congr
    intro i hi
    have hi2 : i < A_cols.length := by
      have := List.mem_range.1 hi
      omega
    have h0 : 0 ≤ A_cols[i] := hcols _ (List.getElem_mem _)
    have hg : A_cols.getD i 0 = A_cols[i] := by
      simp [List.getD_eq_getElem?_getD, List.getElem?_eq_getElem hi2]
    have hiff : (A_cols[i]).toNat = c ↔ A_cols[i] = (c : Int) := by omega
    simp only [Function.comp, hg, hiff, Bool.decide_and]
    exact Bool.and_comm _ _
  rw [hf]
  rfl

theorem digitChar_toNat (d : Nat) (h : d < 10) : (Nat.digitChar d).toNat - 48 = d := by
  interval_cases d <;> rfl

theorem digitChar_ne_minus (d : Nat) (h : d < 10) : Nat.digitChar d ≠ '-' := by
  interval_cases d <;> decide

theorem decode_toDigitsCore : ∀ (fuel n : Nat) (ds : List Char), n < fuel →
    decodeDigits (Nat.toDigitsCore 10 fuel n ds) 0 = decodeDigits ds n := by
  intro fuel
  induction fuel with
  | zero => intro n ds h; omega
  | succ f ih =>
    intro n ds h
    unfold Nat.toDigitsCore
    have hd := digitChar_toNat (n % 10) (Nat.mod_lt _ (by decide))
    by_cases h0 : n / 10 = 0
    · simp only [h0, if_true]
      simp only [decodeDigits, List.foldl_cons, hd]
      congr 1
      omega
    · simp only [h0, if_false]
      rw [ih (n / 10) _ (by omega)]
      simp only [decodeDigits, List.foldl_cons, hd]
      congr 1
      omega

theorem toDigitsCore_no_minus : ∀ (fuel n : Nat) (ds : List Char),
    (∀ ch ∈ ds, ch ≠ '-') → ∀ ch ∈ Nat.toDigitsCore 10 fuel n ds, ch ≠ '-' := by
  intro fuel
  induction fuel with
  | zero => intro n ds h; simpa [Nat.toDigitsCore] using h
  | succ f ih =>
    intro n ds h
    unfold Nat.toDigitsCore
    have hd := digitChar_ne_minus (n % 10) (Nat.mod_lt _ (by decide))
    have hcons : ∀ ch ∈ Nat.digitChar (n % 10) :: ds, ch ≠ '-' := by
      intro ch hch
      rcases List.mem_cons.1 hch with h1 | h1
      · rw [h1]; exact hd
      · exact h ch h1
    by_cases h0 : n / 10 = 0
    · simpa only [h0, if_true] using hcons
    · simp only [h0, if_false]
      exact ih _ _ hcons

theorem repr_data (n : Nat) : (Nat.repr n).data = Nat.toDigits 10 n := rfl

theorem repr_injective (a b : Nat) (h : Nat.repr a = Nat.repr b) : a = b := by
  have hd : Nat.toDigits 10 a = Nat.toDigits 10 b := by
    rw [← repr_data, ← repr_data, h]
  have ha := decode_toDigitsCore (a + 1) a [] (by omega)
  have hb := decode_toDigitsCore (b + 1) b [] (by omega)
  unfold Nat.toDigits at hd
  rw [hd, hb] at ha
  simpa [decodeDigits] using ha.symm

/-- The decimal rendering keeps the number: `to_string` is injective. -/
theorem to_string_injective (a b : Int) (h : to_string a = to_string b) : a = b := by
  have hdata := congrArg String.data h
  cases a with
  | ofNat m =>
    cases b with
    | ofNat n =>
      simp only [to_string] at h
      rw [repr_injective m n h]
    | negSucc n =>
      exfalso
      simp only [to_string, String.data_append, repr_data] at hdata
      have hmem : '-' ∈ Nat.toDigits 10 m := by rw [hdata]; simp
      exact toDigitsCore_no_minus _ _ [] (by simp) '-' hmem rfl
  | negSucc m =>
    cases b with
    | ofNat n =>
      exfalso
      simp only [to_string, String.data_append, repr_data] at hdata
      have hmem : '-' ∈ Nat.toDigits 10 n := by rw [← hdata]; simp
      exact toDigitsCore_no_minus _ _ [] (by simp) '-' hmem rfl
    | negSucc n =>
      simp only [to_string, String.data_append, repr_data] at hdata
      have h2 : Nat.toDigits 10 (m + 1) = Nat.toDigits 10 (n + 1) := by simpa using hdata
      have h3 : Nat.repr (m + 1) = Nat.repr (n + 1) := String.ext (by simpa [repr_data] using h2)
      have := repr_injective _ _ h3
      have hmn : m = n := by omega
      rw [hmn]

theorem error_label_injective (a b : Int)
    (h : "ERROR_" ++ to_string a = "ERROR_" ++ to_string b) : a = b := by
  apply to_string_injective
  have hdata := congrArg String.data h
  simp only [String.data_append] at hdata
  exact String.ext (List.append_cancel_left hdata)

theorem sim_bind {α β : Type} {m1 m2 : Exec α} {f1 f2 : α → Exec β} (hm : Sim m1 m2)
    (hf : ∀ a, Sim (f1 a) (f2 a)) : Sim (m1 >>= f1) (m2 >>= f2) := by
  intro s1 s2 hs
  obtain ⟨h1, h2⟩ := hm s1 s2 hs
  simp only [bind_apply, Exec.bind]
  rcases hm1 : m1 s1 with ⟨r1, t1⟩
  rcases hm2 : m2 s2 with ⟨r2, t2⟩
  rw [hm1, hm2] at h1 h2
  simp only [] at h1 h2
  subst h1
  cases r1 with
  | error e => exact ⟨rfl, h2⟩
  | ok a => exact hf a t1 t2 h2

theorem sim_pure {α : Type} (a : α) : Sim (pure a : Exec α) (pure a) := by
  intro s1 s2 hs
  exact ⟨rfl, hs⟩

theorem sim_abort {α : Type} (e : Abort) : Sim (abort e : Exec α) (abort e) := by
  intro s1 s2 hs
  exact ⟨rfl, hs⟩

theorem sim_say (v1 v2 : Bool) (msg : String) : Sim (say v1 msg) (say v2 msg) := by
  intro s1 s2 hs
  exact ⟨rfl, hs⟩

theorem sim_call (S : Solver) (c : Call) : Sim (call S c) (call S c) := by
  intro s1 s2 hs
  simp [call, hs]

theorem sim_query {α : Type} (S : Solver) (c : Call) (ans : α) :
    Sim (query S c ans) (query S c ans) := by
  intro s1 s2 hs
  simp [query, hs]

theorem sim_orUndefined {α : Type} (o : Option α) : Sim (orUndefined o) (orUndefined o) := by
  cases o with
  | none => exact sim_abort _
  | some a => exact sim_pure a

theorem sim_forLoop {σ : Type} (body1 body2 : Nat → σ → Exec σ)
    (hbody : ∀ i st, Sim (body1 i st) (body2 i st)) :
    ∀ (count lo : Nat) (st : σ), Sim (forLoop body1 lo count st) (forLoop body2 lo count st) := by
  intro count
  induction count with
  | zero => intro lo st; exact sim_pure st
  | succ n ih =>
    intro lo st
    exact sim_bind (hbody lo st) (fun st1 => ih (lo + 1) st1)

theorem sim_setParams (S : Solver) (pn pv : List String) :
    Sim (setParams S pn pv) (setParams S pn pv) := by
  unfold setParams
  apply sim_forLoop
  intro i _
  refine sim_bind (sim_orUndefined _) (fun name => ?_)
  refine sim_bind (sim_orUndefined _) (fun value => ?_)
  exact sim_call S _

theorem sim_callReading (S : Solver) (c : Call) (fits : Bool) :
    Sim (callReading S c fits) (callReading S c fits) := by
  intro s1 s2 hs
  simp [callReading, hs]

theorem sim_addVars (S : Solver) (lb ub obj : List ℚ) (vt : List Char) (n : Nat) :
    Sim (addVars S lb ub obj vt n) (addVars S lb ub obj vt n) := by
  unfold addVars
  split
  · exact sim_callReading S _ _
  · split
    · exact sim_callReading S _ _
    · split
      · exact sim_callReading S _ _
      · split
        · exact sim_call S _
        · exact sim_abort _

theorem sim_optimizeModel (S : Solver) (model : Model) (pn pv : List String) (v1 v2 : Bool) :
    Sim (optimizeModel S model pn pv v1) (optimizeModel S model pn pv v2) := by
  unfold optimizeModel
  refine sim_bind (sim_say _ _ _) (fun _ => ?_)
  refine sim_bind (sim_say _ _ _) (fun _ => ?_)
  refine sim_bind (sim_say _ _ _) (fun _ => ?_)
  refine sim_bind (sim_say _ _ _) (fun _ => ?_)
  refine sim_bind (sim_say _ _ _) (fun _ => ?_)
  refine sim_bind (sim_orUndefined _) (fun vt => ?_)
  refine sim_bind (sim_orUndefined _) (fun se => ?_)
  refine sim_bind (sim_say _ _ _) (fun _ => ?_)
  refine sim_bind (sim_call S _) (fun _ => ?_)
  refine sim_bind (sim_call S _) (fun _ => ?_)
  refine sim_bind (sim_call S _) (fun _ => ?_)
  refine sim_bind (sim_call S _) (fun _ => ?_)
  refine sim_bind (sim_say _ _ _) (fun _ => ?_)
  refine sim_bind (sim_setParams S pn pv) (fun _ => ?_)
  refine sim_bind (sim_say _ _ _) (fun _ => ?_)
  refine sim_bind (sim_addVars S _ _ _ _ _) (fun _ => ?_)
  refine sim_bind (sim_call S _) (fun _ => ?_)
  refine sim_bind (sim_call S _) (fun _ => ?_)
  refine sim_bind (sim_call S _) (fun _ => ?_)
  refine sim_bind (sim_say _ _ _) (fun _ => ?_)
  refine sim_bind (sim_orUndefined _) (fun lhs => ?_)
  refine sim_bind (sim_call S _) (fun _ => ?_)
  refine sim_bind (sim_call S _) (fun _ => ?_)
  refine sim_bind (sim_say _ _ _) (fun _ => ?_)
  refine sim_bind (sim_call S _) (fun _ => ?_)
  refine sim_bind (sim_query S _ _) (fun st => ?_)
  exact sim_pure _

theorem sim_extractSolution (S : Solver) (ncol k : Nat) (st : List ℚ × NumericMatrix) :
    Sim (extractSolution S ncol k st) (extractSolution S ncol k st) := by
  unfold extractSolution
  refine sim_bind (sim_call S _) (fun _ => ?_)
  apply sim_forLoop
  intro j st1
  unfold extractVar
  refine sim_bind (sim_query S _ _) (fun _ => ?_)
  refine sim_bind (sim_query S _ _) (fun _ => ?_)
  refine sim_bind (sim_query S _ _) (fun _ => ?_)
  exact sim_pure _

theorem sim_exportResult (S : Solver) (ncol N : Nat) (v1 v2 : Bool) :
    Sim (exportResult S ncol N v1) (exportResult S ncol N v2) := by
  unfold exportResult
  refine sim_bind (sim_say _ _ _) (fun _ => ?_)
  refine sim_bind (sim_say _ _ _) (fun _ => ?_)
  refine sim_bind (sim_query S _ _) (fun sc => ?_)
  refine sim_bind (sim_forLoop _ _ (sim_extractSolution S ncol) _ _ _) (fun st => ?_)
  obtain ⟨O, X⟩ := st
  refine sim_bind (sim_query S _ _) (fun _ => ?_)
  refine sim_bind (sim_query S _ _) (fun _ => ?_)
  refine sim_bind (sim_query S _ _) (fun _ => ?_)
  refine sim_bind (sim_query S _ _) (fun _ => ?_)
  refine sim_bind (sim_query S _ _) (fun _ => ?_)
  refine sim_bind (sim_say _ _ _) (fun _ => ?_)
  refine sim_bind (sim_say _ _ _) (fun _ => ?_)
  exact sim_pure _

theorem sim_solve_gurobi (S : Solver) (model : Model) (pn pv : List String) (N : Nat)
    (v1 v2 : Bool) : Sim (solve_gurobi S model pn pv N v1) (solve_gurobi S model pn pv N v2) := by
  unfold solve_gurobi
  refine sim_bind (sim_optimizeModel S model pn pv v1 v2) (fun a => ?_)
  obtain ⟨ncol, st⟩ := a
  simp only []
  unfold reportResult
  split
  · exact sim_exportResult S ncol N v1 v2
  · split
    · exact sim_pure _
    · split
      · exact sim_pure _
      · split
        · exact sim_pure _
        · exact sim_pure _

theorem solve_gurobi_run (S : Solver) (model : Model) (pn pv : List String) (N : Nat)
    (v : Bool) :
    run (solve_gurobi S model pn pv N v) =
      match run (optimizeModel S model pn pv v) with
      | (Except.ok a, s1) => reportResult S a.1 a.2 N v s1
      | (Except.error e, s1) => (Except.error e, s1) := by
  unfold run solve_gurobi
  rw [bind_apply]
  unfold Exec.bind
  rcases optimizeModel S model pn pv v ⟨[], []⟩ with ⟨r, s1⟩
  cases r <;> rfl

/-- What `optimizeModel` returns is `ncol` and the first status answer. -/
theorem optimizeModel_ok (S : Solver) (model : Model) (pn pv : List String) (v : Bool)
    (a : Nat × Int) (h : (run (optimizeModel S model pn pv v)).1 = Except.ok a) :
    a = (model.obj.length, S.status1) :=
  (optimizeModel_value S model pn pv v ⟨[], []⟩).1 a h

/-- A run that returns a value has passed `optimizeModel`. -/
theorem solve_gurobi_ok (S : Solver) (model : Model) (pn pv : List String) (N : Nat)
    (v : Bool) (res : RList) (h : (run (solve_gurobi S model pn pv N v)).1 = Except.ok res) :
    ∃ s1, run (optimizeModel S model pn pv v) = (Except.ok (model.obj.length, S.status1), s1) ∧
      run (solve_gurobi S model pn pv N v) =
        reportResult S model.obj.length S.status1 N v s1 := by
  rw [solve_gurobi_run] at h ⊢
  rcases hrun : run (optimizeModel S model pn pv v) with ⟨r, s1⟩
  rw [hrun] at h
  cases r with
  | error e => simp at h
  | ok a =>
    have ha := optimizeModel_ok S model pn pv v a (by rw [hrun])
    subst ha
    exact ⟨s1, rfl, rfl⟩

/-- The early returns of lines 100 to 109. -/
theorem reportResult_early (S : Solver) (ncol : Nat) (st : Int) (N : Nat) (v : Bool) (s : St)
    (hne : st ≠ GRB_OPTIMAL) :
    reportResult S ncol st N v s =
      (Except.ok [("status", Value.str
        (if st = GRB_INF_OR_UNBD then "INFEASIBLE_OR_UNBOUNDED"
         else if st = GRB_INFEASIBLE then "INFEASIBLE"
         else if st = GRB_UNBOUNDED then "UNBOUNDED"
         else "ERROR_" ++ to_string st))], s) := by
  unfold reportResult
  rw [if_neg hne]
  by_cases h4 : st = GRB_INF_OR_UNBD
  · simp only [h4, if_true]; rfl
  · by_cases h3 : st = GRB_INFEASIBLE
    · simp only [h4, h3, if_true, if_false]; rfl
    · by_cases h5 : st = GRB_UNBOUNDED
      · simp only [h4, h3, h5, if_true, if_false]; rfl
      · simp only [h4, h3, h5, if_false]; rfl

theorem extractionCall_not_build (model : Model) (c : Call) (hb : BuildCall model c) :
    ¬ ExtractionCall c := by
  cases c <;> simp_all [BuildCall, ExtractionCall]

/-- The calls of a run of `optimizeModel` are calls of the model construction. -/
theorem optimizeModel_buildCalls (S : Solver) (model : Model) (pn pv : List String) (v : Bool) :
    ∀ c ∈ (run (optimizeModel S model pn pv v)).2.calls, BuildCall model c := by
  obtain ⟨l, hl, hP, _⟩ := optimizeModel_sends S model pn pv v ⟨[], []⟩
  intro c hc
  unfold run at hc
  rw [hl] at hc
  exact hP c (by simpa using hc)

/-- A run on the success path returns the seven entries, with every solution stored. -/
theorem solve_gurobi_full (S : Solver) (model : Model) (pn pv : List String) (N : Nat)
    (v : Bool) (res : RList) (hret : (run (solve_gurobi S model pn pv N v)).1 = Except.ok res)
    (hopt : S.status1 = GRB_OPTIMAL) :
    ∃ objval x, res = [("status", Value.str (statusLabel S.status2)),
        ("runtime", Value.num S.runtime), ("itercount", Value.num S.iterCount),
        ("baritercount", Value.num (S.barIterCount : ℚ)), ("nodecount", Value.num S.nodeCount),
        ("objval", Value.vec objval), ("x", Value.mat x)] ∧
      Shape (min (size_t_of_int S.solCount) N) model.obj.length (objval, x) ∧
      RowsDone S model.obj.length (min (size_t_of_int S.solCount) N) (objval, x) := by
  obtain ⟨s1, _, hrun⟩ := solve_gurobi_ok S model pn pv N v res hret
  rw [hrun] at hret
  unfold reportResult at hret
  rw [if_pos hopt] at hret
  have hspec := exportResult_spec S model.obj.length N v s1
  unfold wp at hspec
  rw [hret] at hspec
  exact hspec

/-- A folded sum over `0, ..., n - 1` only depends on the summands below `n`. -/
theorem foldl_range_congr (f g : ℚ → Nat → ℚ) :
    ∀ (n : Nat), (∀ acc j, j < n → f acc j = g acc j) →
      (List.range n).foldl f 0 = (List.range n).foldl g 0 := by
  intro n
  induction n with
  | zero => intro _; rfl
  | succ m ih =>
    intro h
    rw [List.range_succ, List.foldl_append, List.foldl_append,
      ih (fun acc j hj => h acc j (by omega))]
    simp only [List.foldl_cons, List.foldl_nil]
    exact h _ m (by omega)

theorem sends_extractSolution (S : Solver) (ncol k : Nat) (st : List ℚ × NumericMatrix) :
    Sends ExportCall (extractSolution S ncol k st) (fun _ => True) := by
  unfold extractSolution
  refine sends_bind (sends_call S _ (by simp [ExportCall])) (fun _ _ => ?_)
  apply sends_forLoop
  intro j st1
  unfold extractVar
  refine sends_bind (sends_query S _ _ (by simp [ExportCall])) (fun _ _ => ?_)
  refine sends_bind (sends_query S _ _ (by simp [ExportCall])) (fun _ _ => ?_)
  refine sends_bind (sends_query S _ _ (by simp [ExportCall])) (fun _ _ => ?_)
  exact sends_pure _ trivial

theorem sends_exportResult (S : Solver) (ncol N : Nat) (v : Bool) :
    Sends ExportCall (exportResult S ncol N v) (fun _ => True) := by
  unfold exportResult
  refine sends_bind (sends_say _ _) (fun _ _ => ?_)
  refine sends_bind (sends_say _ _) (fun _ _ => ?_)
  refine sends_bind (sends_query S _ _ (by simp [ExportCall])) (fun _ _ => ?_)
  refine sends_bind (sends_forLoop _ (sends_extractSolution S ncol) _ _ _) (fun st _ => ?_)
  obtain ⟨O, X⟩ := st
  refine sends_bind (sends_query S _ _ (by simp [ExportCall])) (fun _ _ => ?_)
  refine sends_bind (sends_query S _ _ (by simp [ExportCall])) (fun _ _ => ?_)
  refine sends_bind (sends_query S _ _ (by simp [ExportCall])) (fun _ _ => ?_)
  refine sends_bind (sends_query S _ _ (by simp [ExportCall])) (fun _ _ => ?_)
  refine sends_bind (sends_query S _ _ (by simp [ExportCall])) (fun _ _ => ?_)
  refine sends_bind (sends_say _ _) (fun _ _ => ?_)
  refine sends_bind (sends_say _ _) (fun _ _ => ?_)
  exact sends_pure _ trivial

theorem sends_reportResult (S : Solver) (ncol : Nat) (st : Int) (N : Nat) (v : Bool) :
    Sends ExportCall (reportResult S ncol st N v) (fun _ => True) := by
  unfold reportResult
  split
  · exact sends_exportResult S ncol N v
  · split
    · exact sends_pure _ trivial
    · split
      · exact sends_pure _ trivial
      · split
        · exact sends_pure _ trivial
        · exact sends_pure _ trivial

/-- The calls of a run of `solve_gurobi`: those of `optimizeModel`, followed by calls of
`exportResult`. -/
theorem solve_gurobi_calls (S : Solver) (model : Model) (pn pv : List String) (N : Nat)
    (v : Bool) :
    ∃ l, (run (solve_gurobi S model pn pv N v)).2.calls =
        (run (optimizeModel S model pn pv v)).2.calls ++ l ∧
      (∀ c ∈ l, ExportCall c) ∧
      ((∀ a, (run (optimizeModel S model pn pv v)).1 ≠ Except.ok a) → l = []) := by
  rw [solve_gurobi_run]
  rcases hopt : run (optimizeModel S model pn pv v) with ⟨r, s1⟩
  cases r with
  | error e => exact ⟨[], by simp, by simp, fun _ => rfl⟩
  | ok a =>
    obtain ⟨l, hl, hP, _⟩ := sends_reportResult S a.1 a.2 N v s1
    exact ⟨l, hl, hP, fun h => absurd rfl (h a)⟩

/-- A call of the model construction found in a run of `solve_gurobi` is as the model
gives it. -/
theorem solve_gurobi_buildCall (S : Solver) (model : Model) (pn pv : List String) (N : Nat)
    (v : Bool) (c : Call) (hc : c ∈ (run (solve_gurobi S model pn pv N v)).2.calls)
    (hne : ¬ ExportCall c) : BuildCall model c := by
  obtain ⟨l, hl, hP, _⟩ := solve_gurobi_calls S model pn pv N v
  rw [hl] at hc
  rcases List.mem_append.1 hc with h | h
  · exact optimizeModel_buildCalls S model pn pv v c h
  · exact absurd (hP c h) hne

/-- A run of `solve_gurobi` that returns a value has set the direction and handed the
variables and the constraints to the solver. -/
theorem solve_gurobi_present (S : Solver) (model : Model) (pn pv : List String) (N : Nat)
    (v : Bool) (res : RList) (hret : (run (solve_gurobi S model pn pv N v)).1 = Except.ok res) :
    Call.setModelSense (modelSenseValue model.modelsense) ∈
        (run (solve_gurobi S model pn pv N v)).2.calls ∧
      (∃ lhs se, Call.addConstrs lhs se model.rhs (constrNames model.rhs.length)
        model.rhs.length ∈ (run (solve_gurobi S model pn pv N v)).2.calls) ∧
      (∃ lb ub vt, Call.addVars lb ub model.obj vt model.obj.length ∈
        (run (solve_gurobi S model pn pv N v)).2.calls) := by
  obtain ⟨s1, hopt, _⟩ := solve_gurobi_ok S model pn pv N v res hret
  obtain ⟨l, hl, _, _⟩ := solve_gurobi_calls S model pn pv N v
  have hp := optimizeModel_present S model pn pv v
  unfold wp at hp
  unfold run at hopt hl
  rw [hopt] at hp hl
  obtain ⟨h1, ⟨lhs, se, h2⟩, ⟨lb, ub, vt, h3⟩⟩ := hp _ rfl
  unfold run
  rw [hl]
  exact ⟨List.mem_append_left _ h1, ⟨lhs, se, List.mem_append_left _ h2⟩,
    ⟨lb, ub, vt, List.mem_append_left _ h3⟩⟩

theorem size_t_of_int_nonneg (c : Int) (h0 : 0 ≤ c) (h1 : c < 2 ^ 64) :
    size_t_of_int c = c.toNat := by
  unfold size_t_of_int
  rw [Int.emod_eq_of_lt h0 h1]

theorem nofatal_bind {α β : Type} {m : Exec α} {f : α → Exec β} (hm : NoFatal m)
    (hf : ∀ a, NoFatal (f a)) : NoFatal (m >>= f) := by
  intro s msg
  rw [bind_apply]
  unfold Exec.bind
  have h1 := hm s msg
  rcases hms : m s with ⟨r, s1⟩
  rw [hms] at h1
  cases r with
  | error e => simpa using h1
  | ok a => exact hf a s1 msg

theorem nofatal_pure {α : Type} (a : α) : NoFatal (pure a : Exec α) := by
  intro s msg
  simp [pure_apply]

theorem nofatal_say (v : Bool) (msg : String) : NoFatal (say v msg) := by
  intro s m
  simp [say]

theorem nofatal_call (S : Solver) (c : Call) : NoFatal (call S c) := by
  intro s m
  unfold call
  cases S.rejects s.calls c <;> simp

theorem nofatal_query {α : Type} (S : Solver) (c : Call) (ans : α) :
    NoFatal (query S c ans) := by
  intro s m
  unfold query
  cases S.rejects s.calls c <;> simp

theorem nofatal_forLoop {σ : Type} (body : Nat → σ → Exec σ)
    (hbody : ∀ i st, NoFatal (body i st)) :
    ∀ (count lo : Nat) (st : σ), NoFatal (forLoop body lo count st) := by
  intro count
  induction count with
  | zero => intro lo st; exact nofatal_pure st
  | succ n ih =>
    intro lo st
    exact nofatal_bind (hbody lo st) (fun st1 => ih (lo + 1) st1)

theorem nofatal_exportResult (S : Solver) (ncol N : Nat) (v : Bool) :
    NoFatal (exportResult S ncol N v) := by
  unfold exportResult
  refine nofatal_bind (nofatal_say _ _) (fun _ => ?_)
  refine nofatal_bind (nofatal_say _ _) (fun _ => ?_)
  refine nofatal_bind (nofatal_query S _ _) (fun _ => ?_)
  refine nofatal_bind (nofatal_forLoop _ (fun k st => ?_) _ _ _) (fun st => ?_)
  · unfold extractSolution
    refine nofatal_bind (nofatal_call S _) (fun _ => ?_)
    apply nofatal_forLoop
    intro j st1
    unfold extractVar
    refine nofatal_bind (nofatal_query S _ _) (fun _ => ?_)
    refine nofatal_bind (nofatal_query S _ _) (fun _ => ?_)
    refine nofatal_bind (nofatal_query S _ _) (fun _ => ?_)
    exact nofatal_pure _
  · obtain ⟨O, X⟩ := st
    refine nofatal_bind (nofatal_query S _ _) (fun _ => ?_)
    refine nofatal_bind (nofatal_query S _ _) (fun _ => ?_)
    refine nofatal_bind (nofatal_query S _ _) (fun _ => ?_)
    refine nofatal_bind (nofatal_query S _ _) (fun _ => ?_)
    refine nofatal_bind (nofatal_query S _ _) (fun _ => ?_)
    refine nofatal_bind (nofatal_say _ _) (fun _ => ?_)
    refine nofatal_bind (nofatal_say _ _) (fun _ => ?_)
    exact nofatal_pure _

/-- No run of `solve_gurobi` ends with the error of line 72: the four tests of lines 63
to 69 leave no case for it. -/
theorem solve_gurobi_never_fatal (S : Solver) (model : Model) (pn pv : List String)
    (N : Nat) (v : Bool) (msg : String) :
    (run (solve_gurobi S model pn pv N v)).1 ≠ Except.error (Abort.fatal msg) := by
  rw [solve_gurobi_run]
  have h1 := (optimizeModel_value S model pn pv v ⟨[], []⟩).2 msg
  rcases hopt : run (optimizeModel S model pn pv v) with ⟨r, s1⟩
  unfold run at hopt
  rw [hopt] at h1
  cases r with
  | error e => simpa using h1
  | ok a =>
    simp only []
    unfold reportResult
    split
    · exact nofatal_exportResult S _ N v s1 msg
    · split
      · simp [pure_apply]
      · split
        · simp [pure_apply]
        · split
          · simp [pure_apply]
          · simp [pure_apply]

/-- On the sample model with a lower-bound vector of one entry for two variables, the
call that creates the two variables is made all the same, after the session calls, with
the one entry there is; the run does not end with the error of line 72. -/
theorem short_bound_vector_passed :
    (run (solve_gurobi (sampleSolver 2 2) shortBoundModel [] [] 5 false)).2.calls.take 5 =
        [Call.newEnv, Call.newModel, Call.setModelName "sample", Call.update,
          Call.addVars (some [0]) none [3, 5] ['C', 'C'] 2] ∧
      ∀ msg, (run (solve_gurobi (sampleSolver 2 2) shortBoundModel [] [] 5 false)).1 ≠
        Except.error (Abort.fatal msg) :=
  ⟨by decide!, solve_gurobi_never_fatal (sampleSolver 2 2) shortBoundModel [] [] 5 false⟩

/-! ## The claims -/

/-- Claim C1.  On the success path (the run returns and the first status is
`GRB_OPTIMAL`), when the solver reports for each variable the objective coefficient
`obj[j]` it was created with, the returned list holds a vector `objval` and a matrix
`x` such that for every solution index `k` below the number of extracted solutions,
`objval[k]` is the sum over `j < ncol` of `obj[j] * x(k, j)`, accumulated left to right
from zero in exact arithmetic. -/
theorem objval_is_dot_product (S : Solver) (model : Model) (pn pv : List String) (N : Nat)
    (v : Bool) (res : RList)
    (hret : (run (solve_gurobi S model pn pv N v)).1 = Except.ok res)
    (hopt : S.status1 = GRB_OPTIMAL)
    (hobj : ∀ j, j < model.obj.length → S.obj j = model.obj.getD j 0) :
    ∃ objval x, res.get "objval" = some (Value.vec objval) ∧
      res.get "x" = some (Value.mat x) ∧
      ∀ k, k < min (size_t_of_int S.solCount) N →
        objval[k]? = some ((List.range model.obj.length).foldl
          (fun acc j => acc + model.obj.getD j 0 * (x.at k j).getD 0) 0) := by
  obtain ⟨objval, x, hres, _, hdone⟩ := solve_gurobi_full S model pn pv N v res hret hopt
  refine ⟨objval, x, by rw [hres]; rfl, by rw [hres]; rfl, ?_⟩
  intro k hk
  obtain ⟨h1, h2⟩ := hdone k hk
  rw [h1]
  congr 1
  unfold dotTo
  apply foldl_range_congr
  intro acc j hj
  simp only [] at h2
  rw [h2 j hj, hobj j hj, Option.getD_some]

/-- Claim C1, on the sample model: the pool entries `(0, 0)` and `(1, 2)` under the
objective `(3, 5)` give the objective values `0` and `13`. -/
theorem objval_is_dot_product_witness :
    (run (solve_gurobi (sampleSolver 2 2) sampleModel [] [] 5 false)).1 =
        Except.ok sampleResult ∧
      ∃ objval x, sampleResult.get "objval" = some (Value.vec objval) ∧
        sampleResult.get "x" = some (Value.mat x) ∧
        ∀ k, k < min (size_t_of_int (sampleSolver 2 2).solCount) 5 →
          objval[k]? = some ((List.range sampleModel.obj.length).foldl
            (fun acc j => acc + sampleModel.obj.getD j 0 * (x.at k j).getD 0) 0) :=
  ⟨by decide!, objval_is_dot_product (sampleSolver 2 2) sampleModel [] [] 5 false sampleResult
    (by decide!) rfl (fun _ _ => rfl)⟩

/-- Claim C2.  For every triplet list of equal lengths whose row indices are (non-negative
and) below `nrow` and whose column indices are (non-negative and) below `ncol`, the
assembling loop of lines 85 to 90 yields `nrow` expressions, and the coefficient of
variable `c` in the expression of row `r` is the sum of `A_vals[i]` over the triplets
`i` with `A_rows[i] = r` and `A_cols[i] = c`: duplicates are added, not overwritten. -/
theorem assemble_coeff_sum (A_rows A_cols : List Int) (A_vals : List ℚ) (nrow ncol : Nat)
    (hlen1 : A_rows.length = A_cols.length) (hlen2 : A_cols.length = A_vals.length)
    (hrows : ∀ r ∈ A_rows, 0 ≤ r ∧ r < nrow) (hcols : ∀ c ∈ A_cols, 0 ≤ c ∧ c < ncol) :
    ∃ lhs, assemble A_rows A_cols A_vals nrow ncol = some lhs ∧ lhs.length = nrow ∧
      ∀ r c, r < nrow → c < ncol →
        (lhs.getD r GRBLinExpr.zero).coeff c =
          (((List.range A_rows.length).filter
            (fun i => A_rows.getD i 0 = (r : Int) ∧ A_cols.getD i 0 = (c : Int))).map
            (fun i => A_vals.getD i 0)).sum := by
  obtain ⟨lhs, hlhs⟩ := assembleLoop_some A_rows A_cols A_vals nrow ncol hlen1 hlen2 hrows hcols
    A_rows.length 0 (List.replicate nrow GRBLinExpr.zero) (by omega) (by simp)
  have hA := assemble_assembled A_rows A_cols A_vals nrow ncol lhs hlhs
  refine ⟨lhs, hlhs, hA.1, ?_⟩
  intro r c hr _
  rw [List.getD_eq_getElem?_getD, hA.2 r hr, Option.getD_some]
  exact coeff_rowTerms A_rows A_cols A_vals r c A_rows.length (by omega)
    (fun c hc => (hcols c hc).1)

/-- Claim C2, at the triplets `(0,0,2.0)` and `(0,0,3.0)`: the coefficient of variable 0
in row 0 is `5.0`. -/
theorem assemble_coeff_sum_witness :
    ∃ lhs, assemble [0, 0] [0, 0] [2, 3] 1 1 = some lhs ∧ lhs.length = 1 ∧
      (lhs.getD 0 GRBLinExpr.zero).coeff 0 = 5 := by
  obtain ⟨lhs, h1, h2, h3⟩ := assemble_coeff_sum [0, 0] [0, 0] [2, 3] 1 1 rfl rfl
    (by decide) (by decide)
  refine ⟨lhs, h1, h2, ?_⟩
  rw [h3 0 0 (by decide) (by decide)]
  simp [List.range_succ, List.filter_cons]
  norm_num

/-- Claim C3.  For every input that reaches solution extraction (the model is built and
optimized and the status read is `GRB_OPTIMAL`): the run returns a result unless the
solver refuses a call of the extraction, and in every returned result `objval` has
`effectiveN` entries and `x` has `effectiveN` rows and `ncol = len(obj)` columns, where
`effectiveN` is the minimum of the requested count and of the solver-reported count
converted to `std::size_t`, that is `min(NumberSolutions, SolCount)` for a pool size
`SolCount >= 0`. -/
theorem extraction_count (S : Solver) (model : Model) (pn pv : List String) (N : Nat)
    (v : Bool) (ncol : Nat)
    (hreach : (run (optimizeModel S model pn pv v)).1 = Except.ok (ncol, GRB_OPTIMAL)) :
    (¬ Refuses S → ∃ res, (run (solve_gurobi S model pn pv N v)).1 = Except.ok res) ∧
    ∀ res, (run (solve_gurobi S model pn pv N v)).1 = Except.ok res →
      ∃ objval x, res.get "objval" = some (Value.vec objval) ∧
        res.get "x" = some (Value.mat x) ∧
        objval.length = min (size_t_of_int S.solCount) N ∧
        (0 ≤ S.solCount → S.solCount < 2 ^ 64 → objval.length = min N S.solCount.toNat) ∧
        x.nrow = objval.length ∧ x.rows.length = objval.length ∧
        x.ncol = model.obj.length ∧ ∀ row ∈ x.rows, row.length = model.obj.length := by
  have hval := optimizeModel_ok S model pn pv v _ hreach
  simp only [Prod.mk.injEq] at hval
  obtain ⟨hncol, hopt⟩ := hval
  refine ⟨?_, ?_⟩
  · intro href
    have hrun := solve_gurobi_run S model pn pv N v
    rcases hopt2 : run (optimizeModel S model pn pv v) with ⟨r, s1⟩
    rw [hopt2] at hreach hrun
    simp only [] at hreach
    subst hreach
    simp only [] at hrun
    unfold reportResult at hrun
    rw [if_pos rfl] at hrun
    have hspec := exportResult_spec S ncol N v s1
    unfold wp at hspec
    rw [hrun]
    rcases hex : exportResult S ncol N v s1 with ⟨r2, s2⟩
    rw [hex] at hspec
    cases r2 with
    | error e => exact absurd hspec href
    | ok res => exact ⟨res, rfl⟩
  · intro res hret
    obtain ⟨objval, x, hres, hshape, _⟩ :=
      solve_gurobi_full S model pn pv N v res hret hopt.symm
    obtain ⟨h1, h2, h3, h4, h5⟩ := hshape
    simp only [] at h1 h2 h3 h4 h5
    refine ⟨objval, x, by rw [hres]; rfl, by rw [hres]; rfl, h1, ?_, by rw [h2, h1],
      by rw [h4, h1], h3, h5⟩
    intro h0 hlt
    rw [h1, size_t_of_int_nonneg _ h0 hlt, Nat.min_comm]

/-- Claim C3, on the sample model: five solutions requested, two in the pool, two
extracted. -/
theorem extraction_count_witness :
    (run (solve_gurobi (sampleSolver 2 2) sampleModel [] [] 5 false)).1 =
        Except.ok sampleResult ∧
      ∃ objval x, sampleResult.get "objval" = some (Value.vec objval) ∧
        sampleResult.get "x" = some (Value.mat x) ∧ objval.length = 2 ∧ x.nrow = 2 ∧
        x.rows.length = 2 ∧ x.ncol = 2 := by
  have hrun : (run (solve_gurobi (sampleSolver 2 2) sampleModel [] [] 5 false)).1 =
      Except.ok sampleResult := by decide!
  obtain ⟨objval, x, h1, h2, h3, _, h5, h6, h7, _⟩ :=
    (extraction_count (sampleSolver 2 2) sampleModel [] [] 5 false 2 rfl).2 sampleResult hrun
  have h8 : objval.length = 2 := by rw [h3]; decide
  exact ⟨hrun, objval, x, h1, h2, h8, by rw [h5, h8], by rw [h6, h8], h7⟩

/-- Claim C4.  When the status read on line 99 is not `GRB_OPTIMAL`, in particular when
it is `GRB_INF_OR_UNBD`, `GRB_INFEASIBLE` or `GRB_UNBOUNDED`, `solve_gurobi` returns a
list whose only key is `status`, makes no call after that read and so performs no
solution extraction; for `GRB_INFEASIBLE` the list is exactly `status = "INFEASIBLE"`.
Solution extraction is thus reached only on `GRB_OPTIMAL`. -/
theorem early_exit_status_only (S : Solver) (model : Model) (pn pv : List String) (N : Nat)
    (v : Bool) (ncol : Nat) (st : Int)
    (hreach : (run (optimizeModel S model pn pv v)).1 = Except.ok (ncol, st))
    (hne : st ≠ GRB_OPTIMAL) :
    ∃ label, (run (solve_gurobi S model pn pv N v)).1 = Except.ok [("status", Value.str label)] ∧
      RList.keys [("status", Value.str label)] = ["status"] ∧
      (st = GRB_INFEASIBLE → label = "INFEASIBLE") ∧
      (st = GRB_INF_OR_UNBD → label = "INFEASIBLE_OR_UNBOUNDED") ∧
      (st = GRB_UNBOUNDED → label = "UNBOUNDED") ∧
      (run (solve_gurobi S model pn pv N v)).2.calls =
        (run (optimizeModel S model pn pv v)).2.calls ∧
      ∀ c ∈ (run (solve_gurobi S model pn pv N v)).2.calls, ¬ ExtractionCall c := by
  have hrun := solve_gurobi_run S model pn pv N v
  rcases hopt : run (optimizeModel S model pn pv v) with ⟨r, s1⟩
  rw [hopt] at hreach hrun
  simp only [] at hreach
  subst hreach
  simp only [] at hrun
  rw [reportResult_early S ncol st N v s1 hne] at hrun
  have hcalls : ∀ c ∈ s1.calls, ¬ ExtractionCall c := by
    intro c hc
    have := optimizeModel_buildCalls S model pn pv v c (by rw [hopt]; exact hc)
    exact extractionCall_not_build model c this
  refine ⟨_, by rw [hrun], rfl, ?_, ?_, ?_, by rw [hrun], by rw [hrun]; exact hcalls⟩
  · intro h; subst h; decide
  · intro h; subst h; decide
  · intro h; subst h; decide

/-- Claim C4, on the sample model with a solver that answers `GRB_INFEASIBLE`. -/
theorem early_exit_status_only_witness :
    ∃ label, (run (solve_gurobi (sampleSolver 3 3) sampleModel [] [] 2 false)).1 =
        Except.ok [("status", Value.str label)] ∧ label = "INFEASIBLE" := by
  obtain ⟨label, h1, _, h3, _⟩ := early_exit_status_only (sampleSolver 3 3) sampleModel [] [] 2
    false 2 3 rfl (by decide)
  exact ⟨label, h1, h3 rfl⟩

/-- Claim C5.  When the status read on line 99 is none of `GRB_OPTIMAL`,
`GRB_INF_OR_UNBD`, `GRB_INFEASIBLE` and `GRB_UNBOUNDED`, `solve_gurobi` returns exactly
`status = "ERROR_"` followed by the decimal rendering of the code, and that string
determines the code: another code yields another string. -/
theorem unmapped_status_error_code (S : Solver) (model : Model) (pn pv : List String)
    (N : Nat) (v : Bool) (ncol : Nat) (st : Int)
    (hreach : (run (optimizeModel S model pn pv v)).1 = Except.ok (ncol, st))
    (h2 : st ≠ GRB_OPTIMAL) (h4 : st ≠ GRB_INF_OR_UNBD) (h3 : st ≠ GRB_INFEASIBLE)
    (h5 : st ≠ GRB_UNBOUNDED) :
    (run (solve_gurobi S model pn pv N v)).1 =
        Except.ok [("status", Value.str ("ERROR_" ++ to_string st))] ∧
      to_string st = (if st < 0 then "-" ++ Nat.repr st.natAbs else Nat.repr st.natAbs) ∧
      ∀ st2 : Int, "ERROR_" ++ to_string st2 = "ERROR_" ++ to_string st → st2 = st := by
  have hrun := solve_gurobi_run S model pn pv N v
  rcases hopt : run (optimizeModel S model pn pv v) with ⟨r, s1⟩
  rw [hopt] at hreach hrun
  simp only [] at hreach
  subst hreach
  simp only [] at hrun
  rw [reportResult_early S ncol st N v s1 h2, if_neg h4, if_neg h3, if_neg h5] at hrun
  refine ⟨by rw [hrun], ?_, fun st2 h => error_label_injective st2 st h⟩
  cases st with
  | ofNat m =>
    have h0 : ¬ ((m : Int) < 0) := by omega
    simp [to_string, h0]
  | negSucc m =>
    have : Int.negSucc m < 0 := Int.negSucc_lt_zero m
    simp [to_string, this, Int.natAbs]

/-- Claim C5, on the sample model with a solver that answers code 9 (a time limit). -/
theorem unmapped_status_error_code_witness :
    (run (solve_gurobi (sampleSolver 9 9) sampleModel [] [] 2 false)).1 =
      Except.ok [("status", Value.str "ERROR_9")] :=
  (unmapped_status_error_code (sampleSolver 9 9) sampleModel [] [] 2 false 2 9 rfl
    (by decide) (by decide) (by decide) (by decide)).1

/-- Claim C7.  The value given to the `ModelSense` attribute of the solver is `1`
(minimize) exactly when `modelsense` is the string `"min"`, and `-1` (maximize) for every
other string, among them `"max"`, `"MIN"` and the empty string. -/
theorem model_sense_min_iff (S : Solver) (model : Model) (pn pv : List String) (N : Nat)
    (v : Bool) (val : Int)
    (hcall : Call.setModelSense val ∈ (run (solve_gurobi S model pn pv N v)).2.calls) :
    (val = 1 ↔ model.modelsense = "min") ∧ (val = -1 ↔ model.modelsense ≠ "min") ∧
      modelSenseValue "min" = 1 ∧ modelSenseValue "max" = -1 ∧ modelSenseValue "MIN" = -1 ∧
      modelSenseValue "" = -1 ∧ ∀ s, s ≠ "min" → modelSenseValue s = -1 := by
  have hb := solve_gurobi_buildCall S model pn pv N v _ hcall (by simp [ExportCall])
  have hval : val = modelSenseValue model.modelsense := by simpa [BuildCall] using hb
  refine ⟨?_, ?_, by decide, by decide, by decide, by decide, ?_⟩
  · rw [hval]
    unfold modelSenseValue
    by_cases h : model.modelsense = "min" <;> simp [h]
  · rw [hval]
    unfold modelSenseValue
    by_cases h : model.modelsense = "min" <;> simp [h]
  · intro s hs
    unfold modelSenseValue
    rw [if_neg hs]

/-- Claim C7, on the sample model, whose `modelsense` is `"min"`. -/
theorem model_sense_min_iff_witness :
    Call.setModelSense 1 ∈
        (run (solve_gurobi (sampleSolver 2 2) sampleModel [] [] 5 false)).2.calls ∧
      ((1 : Int) = 1 ↔ sampleModel.modelsense = "min") :=
  ⟨by decide!, (model_sense_min_iff (sampleSolver 2 2) sampleModel [] [] 5 false 1
    (by decide!)).1⟩

/-- Claim C8, at a failing input.  The lower-bound vector of `longBoundModel` has three
entries for two variables, a length that is neither 0 nor `ncol`.  The claim has the run
end with a fatal error before any solver interaction and return no result; the run
raises no fatal error, creates the solver session, hands the solver the first two
entries in the call that creates the variables, and returns the full result. -/
theorem long_bound_vector_accepted :
    (longBoundModel.lb.length ≠ 0 ∧ longBoundModel.lb.length ≠ longBoundModel.obj.length) ∧
      (run (solve_gurobi (sampleSolver 2 2) longBoundModel [] [] 5 false)).1 =
        Except.ok sampleResult ∧
      (run (solve_gurobi (sampleSolver 2 2) longBoundModel [] [] 5 false)).2.calls.head? =
        some Call.newEnv ∧
      Call.addVars (some [0, 0]) none [3, 5] ['C', 'C'] 2 ∈
        (run (solve_gurobi (sampleSolver 2 2) longBoundModel [] [] 5 false)).2.calls ∧
      ¬ (∃ msg, (run (solve_gurobi (sampleSolver 2 2) longBoundModel [] [] 5 false)).1 =
          Except.error (Abort.fatal msg)) := by
  have hrun : (run (solve_gurobi (sampleSolver 2 2) longBoundModel [] [] 5 false)).1 =
      Except.ok sampleResult := by decide!
  refine ⟨by decide, hrun, by decide!, by decide!, ?_⟩
  rintro ⟨msg, h⟩
  rw [hrun] at h
  cases h

/-- Claim C9.  The value returned, or the way the run ends, and the sequence of calls
made to the solver are the same with `verbose = true` and with `verbose = false`: for the
same solver, `verbose` changes the log text only. -/
theorem verbose_changes_log_only (S : Solver) (model : Model) (pn pv : List String)
    (N : Nat) :
    (run (solve_gurobi S model pn pv N true)).1 = (run (solve_gurobi S model pn pv N false)).1 ∧
      (run (solve_gurobi S model pn pv N true)).2.calls =
        (run (solve_gurobi S model pn pv N false)).2.calls :=
  sim_solve_gurobi S model pn pv N true false ⟨[], []⟩ ⟨[], []⟩ rfl

/-- Claim C10.  When `solve_gurobi` returns the full list of seven entries and the
solver status read on line 129 is the one read on line 99, the `status` entry is
`"OPTIMAL"`: the status is `GRB_OPTIMAL`, so no other arm of the switch of lines 129 to
160 is taken. -/
theorem full_result_status_optimal (S : Solver) (model : Model) (pn pv : List String)
    (N : Nat) (v : Bool) (res : RList)
    (hret : (run (solve_gurobi S model pn pv N v)).1 = Except.ok res)
    (hkeys : res.keys =
      ["status", "runtime", "itercount", "baritercount", "nodecount", "objval", "x"])
    (hsame : S.status2 = S.status1) :
    res.get "status" = some (Value.str "OPTIMAL") ∧ S.status1 = GRB_OPTIMAL ∧
      statusLabel S.status2 = "OPTIMAL" := by
  have hopt : S.status1 = GRB_OPTIMAL := by
    by_contra hne
    obtain ⟨s1, _, hrun⟩ := solve_gurobi_ok S model pn pv N v res hret
    rw [hrun, reportResult_early S _ _ N v s1 hne] at hret
    simp only [Except.ok.injEq] at hret
    rw [← hret] at hkeys
    simp [RList.keys] at hkeys
  obtain ⟨objval, x, hres, _, _⟩ := solve_gurobi_full S model pn pv N v res hret hopt
  have hlabel : statusLabel S.status2 = "OPTIMAL" := by
    rw [hsame, hopt]
    decide
  refine ⟨?_, hopt, hlabel⟩
  rw [hres, hlabel]
  rfl

/-- Claim C10, on the sample model with a solver that answers `GRB_OPTIMAL` twice. -/
theorem full_result_status_optimal_witness :
    (run (solve_gurobi (sampleSolver 2 2) sampleModel [] [] 5 true)).1 =
        Except.ok sampleResult ∧
      sampleResult.get "status" = some (Value.str "OPTIMAL") :=
  ⟨by decide!, (full_result_status_optimal (sampleSolver 2 2) sampleModel [] [] 5 true
    sampleResult (by decide!) (by decide!) rfl).1⟩

end Rgurobi
